import Mathlib

/-!
Verification development for the Lua structural-analysis pipeline
(`scripts/analyze_lua_structure.py`, with the legacy variant
`scripts/lua_mod_analyze.py`).

The Python code is shallowly embedded: Python sets are modelled as Lean
lists (with the iteration order made explicit where the code iterates a
set), floats are modelled as exact rationals, dictionaries are modelled
as total functions (with the `.get(k, default)` convention folded into
the function), and fallible I/O is modelled with `Option`/`Except`.
-/

namespace LuaStructure

/-- Qualified function names are plain strings, as in the Python code. -/
abbrev FName := String

/-! ### String helpers

The Python code manipulates names with `in` (substring), `startswith`,
`split`, `replace`, `lower` and a camel-case regex.  These are embedded
as executable functions on `List Char` (`String.data`). -/

/-- Boolean list-prefix test, modelling Python `startswith` on characters. -/
def isPrefixB : List Char → List Char → Bool
  | [], _ => true
  | _ :: _, [] => false
  | a :: as, b :: bs => a == b && isPrefixB as bs

/-- Boolean substring test, modelling the Python `pat in s` operator. -/
def isInfixB (pat : List Char) : List Char → Bool
  | [] => pat.isEmpty
  | c :: rest => isPrefixB pat (c :: rest) || isInfixB pat rest

/-- Substring test on strings: Python `pat in s`. -/
def hasSub (pat s : String) : Bool := isInfixB pat.data s.data

/-- Character membership: Python `c in s` for a single character. -/
def hasChar (c : Char) (s : String) : Bool := s.data.contains c

/-- Python `s.startswith(pre)`. -/
def startsWithB (pre s : String) : Bool := isPrefixB pre.data s.data

/-- Lower-casing of a character list, modelling Python `str.lower`. -/
def lowerChars (l : List Char) : List Char := l.map Char.toLower

/-- Python `s.lower()`. -/
def lowerStr (s : String) : String := ⟨lowerChars s.data⟩

/-- Split a character list on a separator character, keeping empty
pieces, modelling Python `s.split(sep)` for a one-character separator. -/
def splitOnChar (sep : Char) : List Char → List (List Char)
  | [] => [[]]
  | c :: rest =>
    let r := splitOnChar sep rest
    if c = sep then [] :: r
    else
      match r with
      | [] => [[c]]
      | w :: ws => (c :: w) :: ws

/-- Python `s.split(sep)[-1]` for a one-character separator. -/
def lastPart (sep : Char) (s : String) : String :=
  ⟨(splitOnChar sep s.data).getLastD []⟩

/-- Python `s.split(sep)[0]` for a one-character separator. -/
def firstPart (sep : Char) (s : String) : String :=
  ⟨(splitOnChar sep s.data).headD []⟩

/-- Worker for `replaceChars` with an explicit character budget: every
step consumes at least one character of the input when the pattern is
nonempty, so a budget of the input length is exact. -/
def replaceAux (pat rep : List Char) : ℕ → List Char → List Char
  | 0, l => l
  | _ + 1, [] => []
  | fuel + 1, c :: rest =>
    if pat ≠ [] ∧ isPrefixB pat (c :: rest) then
      rep ++ replaceAux pat rep fuel ((c :: rest).drop pat.length)
    else
      c :: replaceAux pat rep fuel rest

/-- Python `s.replace(pat, rep)`: replace every non-overlapping
occurrence of `pat`, scanning left to right. -/
def replaceChars (pat rep : List Char) (l : List Char) : List Char :=
  replaceAux pat rep l.length l

/-- Model of the camel-case splitting regex
`re.sub(r'([a-z])([A-Z])', r'\1 \2', name)`: a space is inserted between
a lower-case character and an upper-case character that follows it. -/
def camelSplit : List Char → List Char
  | [] => []
  | [c] => [c]
  | a :: b :: rest =>
    if a.isLower && b.isUpper then a :: ' ' :: camelSplit (b :: rest)
    else a :: camelSplit (b :: rest)

/-- Python `s.split()`: split on blanks, dropping empty words. -/
def splitWords (l : List Char) : List (List Char) :=
  (splitOnChar ' ' l).filter (fun w => w ≠ [])

/-- Stopword list `STOPWORDS` from `analyze_lua_structure.py`. -/
def STOPWORDS : List String :=
  ["local", "function", "end", "if", "then", "else", "for", "do", "while",
   "return", "nil", "true", "false", "and", "or", "not"]

/-! ### Name tokenization and semantic similarity
(`tokenize_identifier` and `semantic_similarity`, lines 122-158). -/

/-- Tokenize a function name for semantic similarity
(`tokenize_identifier`): strip the module prefix, turn separators into
blanks, split camel case, lower-case, and drop stopwords.  The result is
a deduplicated token list, modelling the Python set comprehension. -/
def tokenize_identifier (name : String) : List String :=
  let s1 := replaceChars "M.".data [] name.data
  let s2 := replaceChars "_".data " ".data s1
  let s3 := replaceChars ".".data " ".data s2
  let s4 := replaceChars ":".data " ".data s3
  let s5 := camelSplit s4
  (((splitWords s5).map (fun w => String.mk (lowerChars w))).filter
    (fun w => w ∉ STOPWORDS)).dedup

/-- Jaccard similarity of the token sets of two names
(`semantic_similarity`). -/
def semantic_similarity (name_a name_b : String) : ℚ :=
  let tokens_a := tokenize_identifier name_a
  let tokens_b := tokenize_identifier name_b
  if tokens_a = [] ∨ tokens_b = [] then 0
  else
    let intersection := (tokens_a.inter tokens_b).length
    let union := (tokens_a.union tokens_b).length
    if 0 < union then (intersection : ℚ) / (union : ℚ) else 0

/-! ### Supplementary call-graph entries (section 6 of the spec).
Only the fields the embedded functions read are carried. -/

/-- One entry of the optional supplementary call-graph JSON artifact. -/
structure CallGraphEntry where
  file : String
  loc : ℕ
  fanin : ℕ
  files_calling : ℕ
  callerList : List FName
  is_utility : Bool

/-- Optional call graph: Python `call_graph` is either `None` or a dict;
a missing key is `none`. -/
abbrev CallGraph := Option (FName → Option CallGraphEntry)

/-! ### Boilerplate scoring (`calculate_boilerplate_score`, lines 188-277). -/

/-- Registration patterns checked by the boilerplate score. -/
def registration_patterns : List String :=
  ["register_", "add_listener", "bind_", "set_handler", "on_", "handle_"]

/-- Widget-construction patterns checked by the boilerplate score. -/
def widget_patterns : List String := ["CREATE_", "LAYOUT", "qt_", "WIDGET"]

/-- Lifecycle name fragments checked by the boilerplate score. -/
def lifecycle_names : List String :=
  ["create", "init", "setup", "ensure", "build", "construct"]

/-- Component 1 of the boilerplate score: the fanout weight
(`min(1.0, fanout / FANOUT_HIGH_WATERMARK)`, lines 209-211). -/
def fanout_weight_of (fanout : ℕ) : ℚ := min 1 ((fanout : ℚ) / 10)

/-- Component 2 of the boilerplate score: the call density, with the
LOC-free fallback proxy (lines 213-223). -/
def call_density_of (fanout : ℕ) (loc? : Option ℕ) : ℚ :=
  match loc? with
  | some loc => if 0 < loc then min 1 ((fanout : ℚ) / max 1 (loc : ℚ)) else 0
  | none =>
    let expected_loc : ℕ := max 5 (fanout * 2)
    min 1 ((fanout : ℚ) / (expected_loc : ℚ))

/-- Component 3 of the boilerplate score: the registration-pattern
weight from the function name and its callees (lines 225-246). -/
def registration_weight_of (fn_name : FName) (fn_calls : List FName) : ℚ :=
  let name_lower := lowerStr fn_name
  let base : ℚ :=
    (if registration_patterns.any (fun p => hasSub (lowerStr p) name_lower) then 0.5 else 0)
    + (if widget_patterns.any (fun p => hasSub (lowerStr p) name_lower) then 0.3 else 0)
  let looped : ℚ :=
    fn_calls.foldl (fun w call =>
      let call_lower := lowerStr call
      let w := if registration_patterns.any (fun p => hasSub (lowerStr p) call_lower)
        then min 1 (w + 0.1) else w
      if widget_patterns.any (fun p => hasSub (lowerStr p) call_lower)
        then min 1 (w + 0.1) else w) base
  min 1 looped

/-- Component 4 of the boilerplate score: the lifecycle-position weight
(lines 248-268). -/
def lifecycle_weight_of (fn_name : FName) (callers : Option (FName → List FName)) : ℚ :=
  let fn_base := lowerStr (lastPart ':' (lastPart '.' fn_name))
  let w : ℚ := if lifecycle_names.any (fun lc => hasSub lc fn_base) then 0.6 else 0
  let is_exported := hasChar '.' fn_name && !hasChar ':' fn_name
  let w : ℚ := w + (if is_exported then 0.2 else 0)
  let w : ℚ :=
    match callers with
    | some cs =>
      let external_callers :=
        (cs fn_name).filter (fun c => !startsWithB (firstPart '.' fn_name) c)
      if external_callers.length = 1 then w + 0.2 else w
    | none => w
  min 1 w

/-- Boilerplate score of one function (`calculate_boilerplate_score`):
the weighted sum of the four components, clamped at one.  `calls` is the
per-function callee set (modelled as a list), `func_loc` an optional LOC
table, `callers` the optional caller table; `call_graph` is accepted but
never read, as in the source. -/
def calculate_boilerplate_score (fn_name : FName) (calls : FName → List FName)
    (context_roots : FName → List String) (call_graph : CallGraph)
    (func_loc : FName → Option ℕ) (callers : Option (FName → List FName)) : ℚ :=
  let fn_calls := calls fn_name
  let fanout : ℕ := fn_calls.length
  let score : ℚ :=
    0.40 * fanout_weight_of fanout + 0.25 * call_density_of fanout (func_loc fn_name)
    + 0.20 * registration_weight_of fn_name fn_calls
    + 0.15 * lifecycle_weight_of fn_name callers
  min 1 score

/-! ### Nucleus scoring (`calculate_nucleus_score`, lines 279-398). -/

/-- Table-like context roots: roots containing a dot or an underscore. -/
def tableLike (r : String) : Bool := hasChar '.' r || hasChar '_' r

/-- Nucleus score of one function inside a cluster
(`calculate_nucleus_score`).  `boilerplate_scores` is the score
dictionary computed by the caller (a total function; `.get(c, 0)` is the
function value). -/
def calculate_nucleus_score (fn_name : FName) (cluster : List FName)
    (calls : FName → List FName) (callers : FName → List FName)
    (context_roots : FName → List String) (boilerplate_scores : FName → ℚ)
    (veneers : List FName) (call_graph : CallGraph)
    (func_scope : Option (FName → Option String)) : ℚ :=
  let boilerplate := boilerplate_scores fn_name
  if (0.6 : ℚ) ≤ boilerplate then 0
  else
    let cluster_callers := (callers fn_name).filter (fun c => c ∈ cluster)
    let non_boilerplate_callers := cluster_callers.filter (fun c => boilerplate_scores c < 0.6)
    let inward_call_weight : ℚ :=
      (non_boilerplate_callers.length : ℚ) / max 1 ((cluster.length : ℚ) - 1)
    let fn_table_roots := (context_roots fn_name).filter tableLike
    let cluster_roots :=
      (cluster.filter (fun other_fn => other_fn ≠ fn_name)).foldl
        (fun acc other_fn => acc.union ((context_roots other_fn).filter tableLike)) []
    let shared_context_weight : ℚ :=
      if fn_table_roots ≠ [] ∧ cluster_roots ≠ [] then
        ((fn_table_roots.inter cluster_roots).length : ℚ) / (fn_table_roots.length : ℚ)
      else 0
    let fn_calls := calls fn_name
    let internal_calls := fn_calls.filter (fun c => c ∈ cluster)
    let internal_participation : ℚ :=
      if fn_calls ≠ [] then (internal_calls.length : ℚ) / (fn_calls.length : ℚ) else 0
    let is_module_api : Bool :=
      match func_scope with
      | some fs => fs fn_name == some "top" && (hasChar '.' fn_name && !hasChar ':' fn_name)
      | none => false
    let cross_file_callers : ℕ :=
      match call_graph with
      | some cg =>
        match cg fn_name with
        | some entry => entry.files_calling
        | none => 0
      | none => 0
    let semantic_centrality : ℚ :=
      (if is_module_api then 0.7 else 0)
      + (if 2 ≤ cross_file_callers then 0.3 else if cross_file_callers = 1 then 0.2 else 0)
    let semantic_centrality : ℚ := min 1 semantic_centrality
    let raw_signal : ℚ :=
      0.15 * inward_call_weight + 0.10 * shared_context_weight
      + 0.15 * internal_participation + 0.60 * semantic_centrality
    let veneer_adjustment : ℚ :=
      if fn_name ∈ veneers then
        (if (0.5 : ℚ) ≤ semantic_centrality then 1 else 0.7)
      else 1
    let nucleus_score := raw_signal * (1 - boilerplate) * veneer_adjustment
    max 0 (min 1 nucleus_score)

/-! ### Coupling engine (`coupling` closure inside `analyze`, lines 1284-1322). -/

/-- Action words used by the coupling boost for API entry points. -/
def action_words : List String :=
  ["activate", "execute", "handle", "process", "apply", "perform", "focus", "select"]

/-- Coupling weight of the ordered pair `(a, b)` (the `coupling` closure
in `analyze`).  `fanout` is `len(calls.get(n, []))` as in the source;
the score is accumulated sequentially and clamped to the unit interval
at the end. -/
def coupling (context_roots idents : FName → List String)
    (calls : FName → List FName) (a b : FName) : ℚ :=
  let fanout := fun n => (calls n).length
  let score : ℚ := 0
  let shared_roots := (context_roots a).inter (context_roots b)
  let score : ℚ :=
    if shared_roots ≠ [] then score + min 0.8 (0.4 + 0.2 * (shared_roots.length : ℚ)) else score
  let shared := (idents a).inter (idents b)
  let score : ℚ :=
    if 3 ≤ shared.length then score + min 0.3 ((shared.length : ℚ) * 0.03) else score
  let score : ℚ := if b ∈ calls a then score + 0.5 / max 1 ((fanout a : ℚ)) else score
  let score : ℚ := score - min 0.5 ((fanout b : ℚ) * 0.03)
  let score : ℚ := if b ∈ calls a ∧ a ∉ calls b then score - 0.05 else score
  let name_sim := semantic_similarity a b
  let score : ℚ :=
    if 0 < name_sim ∧ (shared_roots ≠ [] ∨ b ∈ calls a ∨ a ∈ calls b) then
      score + name_sim * 0.3
    else score
  let score : ℚ :=
    if b ∈ calls a ∨ a ∈ calls b then
      let a_is_action := action_words.any (fun word => hasSub word (lowerStr a))
      let b_is_action := action_words.any (fun word => hasSub word (lowerStr b))
      if (a_is_action || b_is_action) ∧ (b ∈ calls a ∨ a ∈ calls b) then score + 0.15
      else score
    else score
  max 0 (min 1 score)

/-- Spec-side coupling formula, written as one clamped sum of terms in
the order stated by the specification (section 4.4). -/
def coupling_spec (context_roots idents : FName → List String)
    (calls : FName → List FName) (a b : FName) : ℚ :=
  let fan_out := fun n => ((calls n).length : ℚ)
  let shared_roots := (context_roots a).inter (context_roots b)
  let shared_idents := (idents a).inter (idents b)
  let context_term : ℚ :=
    if shared_roots ≠ [] then min 0.8 (0.4 + 0.2 * (shared_roots.length : ℚ)) else 0
  let ident_term : ℚ :=
    if 3 ≤ shared_idents.length then min 0.3 (0.03 * (shared_idents.length : ℚ)) else 0
  let call_term : ℚ := if b ∈ calls a then 0.5 / max 1 (fan_out a) else 0
  let fanout_penalty : ℚ := min 0.5 (0.03 * fan_out b)
  let asym_penalty : ℚ := if b ∈ calls a ∧ a ∉ calls b then 0.05 else 0
  let name_term : ℚ :=
    if shared_roots ≠ [] ∨ b ∈ calls a ∨ a ∈ calls b then
      0.3 * semantic_similarity a b
    else 0
  let action_term : ℚ :=
    if (b ∈ calls a ∨ a ∈ calls b)
        ∧ (action_words.any (fun word => hasSub word (lowerStr a))
           ∨ action_words.any (fun word => hasSub word (lowerStr b))) then 0.15
    else 0
  max 0 (min 1 (0 + context_term + ident_term + call_term - fanout_penalty
    - asym_penalty + name_term + action_term))

/-! ### Cluster discovery, Phase A (`analyze`, lines 1332-1351). -/

/-- Clustering threshold `CLUSTER_THRESHOLD` (line 21). -/
def CLUSTER_THRESHOLD : ℚ := 0.25

/-- Weighted-edge retention threshold `MIN_EDGE` (line 1332). -/
def MIN_EDGE : ℚ := 0.15

/-- State threaded through the Phase A edge-building loop: the `seen`
pair set, the weighted edge list `all_edges` and the adjacency map. -/
structure PhaseAState where
  seen : List (FName × FName)
  all_edges : List (FName × FName × ℚ)
  adj : FName → List FName

/-- Python `tuple(sorted((a, b)))` on two names. -/
def sortedPair (a b : FName) : FName × FName :=
  if a ≤ b then (a, b) else (b, a)

/-- Record the undirected adjacency `adj[a].add(b); adj[b].add(a)`. -/
def updAdj (adj : FName → List FName) (a b : FName) : FName → List FName :=
  fun n => if n = a then (adj n).insert b else if n = b then (adj n).insert a else adj n

/-- One step of the inner Phase A loop body, for outer function `a` and
candidate callee `b` (lines 1337-1351). -/
def edgeStep (structural : List FName) (calls : FName → List FName)
    (context_roots idents : FName → List String)
    (st : PhaseAState) (a b : FName) : PhaseAState :=
  if b ∉ structural ∨ a = b then st
  else
    let pair := sortedPair a b
    if pair ∈ st.seen then st
    else
      let c := coupling context_roots idents calls a b
      { seen := pair :: st.seen
        all_edges := if MIN_EDGE ≤ c then st.all_edges ++ [(a, b, c)] else st.all_edges
        adj := if CLUSTER_THRESHOLD ≤ c then updAdj st.adj a b else st.adj }

/-- Phase A edge building: the double loop `for a in structural_functions:
for b in calls.get(a, [])`.  Python iterates the `structural_functions`
set in an unspecified order; the embedding takes that order explicitly
as the list `order` (the callee sets are already lists here). -/
def build_structure_edges (order : List FName) (structural : List FName)
    (calls : FName → List FName) (context_roots idents : FName → List String) :
    PhaseAState :=
  order.foldl (fun st a =>
    (calls a).foldl (fun st b => edgeStep structural calls context_roots idents st a b) st)
    ⟨[], [], fun _ => []⟩

/-! ### Connected components (`find_connected_components`, lines 1377-1399).
The `while stack` loop is modelled with explicit fuel; the fuel used by
`find_connected_components` is proved sufficient below. -/

/-- One DFS traversal: pop `n`; skip it when visited, otherwise mark it
visited, add it to the component and push its unvisited neighbours. -/
def dfs_collect (adjacency : FName → List FName) :
    ℕ → List FName → List FName → List FName → List FName × List FName
  | 0, _, visited, component => (visited, component)
  | _ + 1, [], visited, component => (visited, component)
  | fuel + 1, n :: stack, visited, component =>
    if n ∈ visited then dfs_collect adjacency fuel stack visited component
    else
      dfs_collect adjacency fuel
        (((adjacency n).filter (fun x => x ∉ n :: visited)) ++ stack)
        (n :: visited) (n :: component)

/-- Fuel that is provably enough for one DFS start: one pop for the
start plus, for every node, one visit and one pop per neighbour. -/
def dfsFuel (nodes : List FName) (adjacency : FName → List FName) : ℕ :=
  1 + (nodes.map (fun n => 1 + (adjacency n).length)).sum

/-- Connected components of size at least two, in start order
(`find_connected_components`). -/
def find_connected_components (nodes : List FName)
    (adjacency : FName → List FName) : List (List FName) :=
  (nodes.foldl (fun (acc : List FName × List (List FName)) node =>
    if node ∈ acc.1 then acc
    else
      let r := dfs_collect adjacency (dfsFuel nodes adjacency) [node] acc.1 []
      if 2 ≤ r.2.length then (r.1, acc.2 ++ [r.2]) else (r.1, acc.2)) ([], [])).2

/-- Raw cluster discovery (`analyze` Phase A): build adjacency from the
coupling thresholds, then extract the components of size at least two.
Both set iterations (`structural_functions` in edge building and in the
component scan) use the same explicit enumeration `order`. -/
def discover_clusters (order : List FName) (structural : List FName)
    (calls : FName → List FName) (context_roots idents : FName → List String) :
    List (List FName) :=
  let st := build_structure_edges order structural calls context_roots idents
  find_connected_components order st.adj

/-! ### Quality gate (`validate_and_split_clusters`, lines 611-772). -/

/-- Outcome of the hard rejection gates for one candidate cluster. -/
inductive GateDecision where
  | accepted : GateDecision
  | boilerplate_dominated : GateDecision
  | no_nucleus : GateDecision
  | competing_nuclei : GateDecision
deriving DecidableEq

/-- Stable insertion of `x` in front of the first element whose key is
not larger, modelling one step of a stable descending sort. -/
def insertDescBy (f : FName → ℚ) (x : FName) : List FName → List FName
  | [] => [x]
  | y :: ys => if f x < f y then y :: insertDescBy f x ys else x :: y :: ys

/-- Stable descending sort by a rational key, modelling Python
`sorted(l, key=f, reverse=True)` (stable, so the unique stable result). -/
def sortDescBy (f : FName → ℚ) : List FName → List FName
  | [] => []
  | x :: xs => insertDescBy f x (sortDescBy f xs)

/-- Maximum of a rational list with default zero, modelling taking the
first score of the descending sort in the source. -/
def maxQ : List ℚ → ℚ
  | [] => 0
  | x :: xs => xs.foldl max x

/-- Lifecycle-coordination naming patterns (mode B of the boilerplate
gate, lines 677-699): the `if/elif` chain marks a function as lifecycle
when any of the four pattern groups matches its lower-cased name. -/
def is_lifecycle_fn (fn : FName) : Bool :=
  let fn_lower := lowerStr fn
  (["init", "setup"].any (fun p => hasSub p fn_lower))
  || (["register", "callback", "notify"].any (fun p => hasSub p fn_lower))
  || (["is_", "set_", "get_"].any (fun p => hasSub p fn_lower))
  || (["teardown", "destroy", "cleanup"].any (fun p => hasSub p fn_lower))

/-- Nucleus threshold `NUCLEUS_THRESHOLD` used by the gates (line 659). -/
def NUCLEUS_THRESHOLD : ℚ := 0.42

/-- Boilerplate scores as computed inside `validate_and_split_clusters`
(line 641: `calculate_boilerplate_score(fn, calls, context_roots)`, so
with no call graph, no LOC table and no caller table). -/
def gate_boilerplate_scores (calls : FName → List FName)
    (context_roots : FName → List String) : FName → ℚ :=
  fun fn => calculate_boilerplate_score fn calls context_roots none (fun _ => none) none

/-- Nucleus scores as computed inside `validate_and_split_clusters`
(lines 645-649). -/
def gate_nucleus_scores (cluster : List FName) (calls callers : FName → List FName)
    (context_roots : FName → List String) (veneers : List FName)
    (call_graph : CallGraph) (func_scope : Option (FName → Option String)) : FName → ℚ :=
  fun fn =>
    calculate_nucleus_score fn cluster calls callers context_roots
      (gate_boilerplate_scores calls context_roots) veneers call_graph func_scope

/-- Hard rejection gates for one candidate cluster, in source order:
boilerplate domination first (modes A and B), then no nucleus, then
competing nuclei; the first matching gate decides
(`validate_and_split_clusters`, lines 637-770).  The cluster is the
Python set in its iteration order. -/
def validate_cluster (cluster : List FName) (calls callers : FName → List FName)
    (context_roots : FName → List String) (veneers : List FName)
    (call_graph : CallGraph) (func_scope : Option (FName → Option String)) :
    GateDecision :=
  let boilerplate_scores := gate_boilerplate_scores calls context_roots
  let nucleus_scores :=
    gate_nucleus_scores cluster calls callers context_roots veneers call_graph func_scope
  let high_centrality_funcs := (sortDescBy nucleus_scores cluster).take 3
  let high_centrality_boilerplate :=
    high_centrality_funcs.filter (fun fn => (0.6 : ℚ) ≤ boilerplate_scores fn)
  let boilerplate_funcs := cluster.filter (fun fn => (0.6 : ℚ) ≤ boilerplate_scores fn)
  let boilerplate_fraction : ℚ :=
    (boilerplate_funcs.length : ℚ) / max 1 (cluster.length : ℚ)
  let lifecycle_funcs := cluster.filter is_lifecycle_fn
  let lifecycle_fraction : ℚ :=
    (lifecycle_funcs.length : ℚ) / max 1 (cluster.length : ℚ)
  let mode_a_triggered :=
    high_centrality_funcs.length ≤ high_centrality_boilerplate.length
    ∧ (0.5 : ℚ) ≤ boilerplate_fraction
  let mode_b_triggered := (0.67 : ℚ) ≤ lifecycle_fraction
  if mode_a_triggered ∨ mode_b_triggered then .boilerplate_dominated
  else
    let nuclei := cluster.filter (fun fn => NUCLEUS_THRESHOLD ≤ nucleus_scores fn)
    if nuclei.length = 0 then .no_nucleus
    else if 1 < nuclei.length then
      let top_score := maxQ (nuclei.map nucleus_scores)
      let competing := nuclei.filter (fun fn => |nucleus_scores fn - top_score| ≤ (0.05 : ℚ))
      if 1 < competing.length then .competing_nuclei else .accepted
    else .accepted

/-- Spec-side rendering of the hard rejection gates as stated in the
specification (section 4.6): the same fixed order, with the conditions
phrased as in the text — all of the top-3 highest-scoring members are
boilerplate and at least half of the cluster is boilerplate, or at least
67 percent match lifecycle naming patterns; otherwise no member reaches
0.42; otherwise more than one member reaches 0.42 and at least two
members score within 0.05 of the maximum score. -/
def gates_spec (cluster : List FName) (calls callers : FName → List FName)
    (context_roots : FName → List String) (veneers : List FName)
    (call_graph : CallGraph) (func_scope : Option (FName → Option String)) :
    GateDecision :=
  let boilerplate_scores := gate_boilerplate_scores calls context_roots
  let nucleus_scores :=
    gate_nucleus_scores cluster calls callers context_roots veneers call_graph func_scope
  let top3 := (sortDescBy nucleus_scores cluster).take 3
  let boilerplate_count := (cluster.filter (fun fn => (0.6 : ℚ) ≤ boilerplate_scores fn)).length
  let lifecycle_count := (cluster.filter is_lifecycle_fn).length
  let boilerplate_gate :=
    ((∀ fn ∈ top3, (0.6 : ℚ) ≤ boilerplate_scores fn)
      ∧ (0.5 : ℚ) ≤ (boilerplate_count : ℚ) / max 1 (cluster.length : ℚ))
    ∨ (0.67 : ℚ) ≤ (lifecycle_count : ℚ) / max 1 (cluster.length : ℚ)
  if boilerplate_gate then .boilerplate_dominated
  else if ∀ fn ∈ cluster, nucleus_scores fn < NUCLEUS_THRESHOLD then .no_nucleus
  else if 1 < (cluster.filter (fun fn => NUCLEUS_THRESHOLD ≤ nucleus_scores fn)).length
      ∧ 2 ≤ (cluster.filter (fun fn =>
          maxQ (cluster.map nucleus_scores) - 0.05 ≤ nucleus_scores fn)).length then
    .competing_nuclei
  else .accepted

/-! ### Proto-nucleus detection (`detect_proto_nucleus`, lines 540-609). -/

/-- Existence of a related pair inside a candidate group: some pair is
directly call-connected, or shares a callee (the one-hop check of the
source examines shared callees only). -/
def anyRelatedPair (calls : FName → List FName) : List FName → Bool
  | [] => false
  | fn_a :: rest =>
    rest.any (fun fn_b =>
      decide (fn_b ∈ calls fn_a) || decide (fn_a ∈ calls fn_b)
      || decide ((calls fn_a).inter (calls fn_b) ≠ []))
    || anyRelatedPair calls rest

/-- Shared non-boilerplate context roots of a candidate group: the
running intersection of the context roots of the members whose
boilerplate score is below 0.6 (`None` when no such member exists). -/
def sharedProtoRoots (context_roots : FName → List String)
    (boilerplate_scores : FName → ℚ) (proto_set : List FName) : Option (List String) :=
  proto_set.foldl (fun acc fn =>
    if boilerplate_scores fn < 0.6 then
      match acc with
      | none => some (context_roots fn)
      | some s => some (s.inter (context_roots fn))
    else acc) none

/-- The size loop of `detect_proto_nucleus` (lines 566-607): for each
size try the prefix of the sorted candidates; skip when the mean score
is below 0.45, accept when the group shares a non-boilerplate context
root and contains a related pair. -/
def proto_try_sizes (candidates_sorted : List FName) (nucleus_scores : FName → ℚ)
    (context_roots : FName → List String) (boilerplate_scores : FName → ℚ)
    (calls : FName → List FName) : List ℕ → List FName
  | [] => []
  | size :: rest =>
    let proto_set := candidates_sorted.take size
    let proto_strength : ℚ :=
      (proto_set.map nucleus_scores).sum / (proto_set.length : ℚ)
    if proto_strength < 0.45 then
      proto_try_sizes candidates_sorted nucleus_scores context_roots boilerplate_scores calls rest
    else
      let shared_roots := sharedProtoRoots context_roots boilerplate_scores proto_set
      let has_shared_context : Bool :=
        match shared_roots with
        | some s => decide (s ≠ [])
        | none => false
      let has_call_relationship := anyRelatedPair calls proto_set
      if has_shared_context && has_call_relationship then proto_set
      else proto_try_sizes candidates_sorted nucleus_scores context_roots boilerplate_scores calls rest

/-- Proto-nucleus detection (`detect_proto_nucleus`): candidates are the
members scoring in `[0.40, 0.55)`; group sizes 2 to 5 are tried on the
descending-sorted candidates and the first accepted prefix is returned. -/
def detect_proto_nucleus (cluster : List FName) (nucleus_scores : FName → ℚ)
    (context_roots : FName → List String) (boilerplate_scores : FName → ℚ)
    (calls : FName → List FName) : List FName :=
  let candidates := cluster.filter (fun fn =>
    (0.40 : ℚ) ≤ nucleus_scores fn ∧ nucleus_scores fn < 0.55)
  if candidates.length < 2 then []
  else
    let candidates_sorted := sortDescBy nucleus_scores candidates
    proto_try_sizes candidates_sorted nucleus_scores context_roots boilerplate_scores calls
      (List.range' 2 (min 6 (candidates_sorted.length + 1) - 2))

/-! ### Nucleus selection and cluster state
(`_analysis_for_cluster`, Phase 2, lines 978-993 and 1169). -/

/-- Phase 2 of `_analysis_for_cluster`: scan the cluster and keep the
best function whose nucleus score reaches 0.45. -/
def select_nucleus (cluster : List FName) (nucleus_scores : FName → ℚ) :
    Option FName × ℚ :=
  cluster.foldl (fun acc fn =>
    if (0.45 : ℚ) ≤ nucleus_scores fn ∧ acc.2 < nucleus_scores fn
    then (some fn, nucleus_scores fn) else acc) (none, 0)

/-- The reported `cluster_state` field (line 1169). -/
def cluster_state (nucleus : Option FName) (proto_nucleus : List FName) : String :=
  match nucleus with
  | some _ => "nucleus"
  | none => if proto_nucleus ≠ [] then "proto_nucleus" else "diffuse"

/-- Phases 2 and 2b of `_analysis_for_cluster`: pick the nucleus, and
attempt proto-nucleus detection only when no nucleus was found; also
report the resulting cluster state. -/
def analysis_nucleus_proto (cluster : List FName) (nucleus_scores : FName → ℚ)
    (context_roots : FName → List String) (boilerplate_scores : FName → ℚ)
    (calls : FName → List FName) : Option FName × List FName × String :=
  let nucleus := (select_nucleus cluster nucleus_scores).1
  let proto_nucleus :=
    match nucleus with
    | some _ => []
    | none => detect_proto_nucleus cluster nucleus_scores context_roots boilerplate_scores calls
  (nucleus, proto_nucleus, cluster_state nucleus proto_nucleus)

/-! ### Name qualification (`qualify_function_name`, lines 166-182) and
the per-file call-edge qualification in `analyze` (lines 1220-1227). -/

/-- Python `s[2:]`. -/
def strDrop (n : ℕ) (s : String) : String := ⟨s.data.drop n⟩

/-- Qualify a function name with a module name: `M.x` becomes
`module.x`, anything else becomes `module:x`. -/
def qualify_function_name (fn_name module_name : String) : String :=
  if startsWithB "M." fn_name then module_name ++ "." ++ strDrop 2 fn_name
  else module_name ++ ":" ++ fn_name

/-- Callee qualification used when recording call edges in `analyze`
(line 1226): every callee is qualified with the module name of the
calling file. -/
def qualified_callee (module_name callee : String) : String :=
  qualify_function_name callee module_name

/-! ### File reading error models (claim C7).

`analyze_lua_structure.parse_lua` (line 791) calls
`path.read_text(errors="ignore")` with no exception handler, so an
unreadable file raises out of `parse_lua` and out of the per-file loop
of `analyze`.  `lua_mod_analyze.parse_lua` (lines 59-62) wraps the read
in `try/except` and returns empty structures, printing nothing.  The
read result is modelled as `Option String` (`none` for an unreadable
file); the lexical parsing of readable text is irrelevant to the claim
and is abstracted as the function argument `parse_body`. -/

/-- Result shape of `lua_mod_analyze.parse_lua`. -/
structure ModParsedFile where
  funcs : List FName
  calls : FName → List FName
  idents : FName → List String
  roots : FName → List String
  locs : FName → Option ℕ

/-- The empty result returned by the `except` branch of
`lua_mod_analyze.parse_lua`. -/
def emptyModParse : ModParsedFile :=
  ⟨[], fun _ => [], fun _ => [], fun _ => [], fun _ => none⟩

/-- Model of `lua_mod_analyze.parse_lua`: an unreadable file yields the
empty structures; the second component is the list of diagnostics the
function prints, which is empty on every path (the `except` branch is
silent). -/
def parse_lua_mod (parse_body : String → ModParsedFile) :
    Option String → ModParsedFile × List String
  | none => (emptyModParse, [])
  | some text => (parse_body text, [])

/-- Model of `analyze_lua_structure.parse_lua`: there is no exception
handler, so an unreadable file propagates the error. -/
def parse_lua_main (parse_body : String → ModParsedFile) :
    Option String → Except Unit ModParsedFile
  | none => .error ()
  | some text => .ok (parse_body text)

/-- The per-file extraction loop of `analyze` over a fixed file list:
each file is parsed in turn, and a raised exception aborts the whole
run (modelled with the `Except` monad). -/
def analyze_extract_all (parse_body : String → ModParsedFile)
    (files : List (Option String)) : Except Unit (List ModParsedFile) :=
  files.mapM (parse_lua_main parse_body)

/-! ### Concrete witness inputs

Small concrete projects used to instantiate the theorems below. -/

/-- Witness function name: a registration-and-lifecycle widget builder. -/
def w2name : FName := "m.register_init_widget"

/-- Witness callee table: the witness function calls two helpers. -/
def w2calls : FName → List FName := fun n => if n = w2name then ["m:ca", "m:cb"] else []

/-- Witness LOC table: the witness function has one line. -/
def w2loc : FName → Option ℕ := fun n => if n = w2name then some 1 else none

/-- Witness caller table: one external caller. -/
def w2callers : FName → List FName := fun n => if n = w2name then ["zz:caller"] else []

/-- Module component of a qualified name: the characters before the
first dot or colon.  Used to compare qualified names across modules. -/
def modulePart (s : String) : String :=
  ⟨s.data.takeWhile (fun c => !(c = '.' || c = ':'))⟩

/-- Well-formed module name: the file stem contains no dot and no
colon. -/
abbrev cleanModuleName (m : String) : Prop := ∀ c ∈ m.data, c ≠ '.' ∧ c ≠ ':'

/-- Mutually-calling pair used for claims C5 and C8: `m:aa` calls
`m:bb` and two unresolved helpers, `m:bb` calls `m:aa` back. -/
def w5a : FName := "m:aa"

/-- Second member of the mutually-calling pair. -/
def w5b : FName := "m:bb"

/-- Callee table of the mutually-calling pair project. -/
def w5calls : FName → List FName :=
  fun n => if n = w5a then [w5b, "m:uu", "m:ww"] else if n = w5b then [w5a] else []

/-- Empty root and identifier tables for the small projects. -/
def wEmpty : FName → List String := fun _ => []

/-- Acceptance condition of one size trial of the proto-nucleus loop:
the mean score of the prefix is not below 0.45, and the prefix has a
shared non-boilerplate context root and a related pair. -/
def proto_accept (candidates_sorted : List FName) (nucleus_scores : FName → ℚ)
    (context_roots : FName → List String) (boilerplate_scores : FName → ℚ)
    (calls : FName → List FName) (size : ℕ) : Prop :=
  let proto_set := candidates_sorted.take size
  ¬ ((proto_set.map nucleus_scores).sum / (proto_set.length : ℚ) < 0.45)
  ∧ ((match sharedProtoRoots context_roots boilerplate_scores proto_set with
      | some s => decide (s ≠ [])
      | none => false) && anyRelatedPair calls proto_set) = true

/-- First function of the proto-nucleus counterexample cluster. -/
def w6p : FName := "n:pa"

/-- Second function of the proto-nucleus counterexample cluster. -/
def w6q : FName := "n:qb"

/-- Nucleus scores of the first counterexample: both functions score
exactly 0.40, inside the candidate band but with mean below 0.45. -/
def w6ns1 : FName → ℚ := fun n => if n = w6p ∨ n = w6q then 2/5 else 0

/-- Nucleus scores of the second counterexample: both functions score
0.50, with mean 0.50. -/
def w6ns2 : FName → ℚ := fun n => if n = w6p ∨ n = w6q then 1/2 else 0

/-- Shared context root of the counterexample pair. -/
def w6cr : FName → List String := fun n => if n = w6p ∨ n = w6q then ["ctxroot"] else []

/-- Calls of the first counterexample: the pair calls each other. -/
def w6calls1 : FName → List FName :=
  fun n => if n = w6p then [w6q] else if n = w6q then [w6p] else []

/-- Calls of the second counterexample: the pair members call nothing;
an outside function calls both (a shared caller, which the detection
never inspects). -/
def w6calls2 : FName → List FName := fun n => if n = "n:rr" then [w6p, w6q] else []

/-- Exported function of the accepted-but-diffuse witness cluster
(module-API scope, dot-style name). -/
def w9a : FName := "m.alpha"

/-- Method-style second function of the accepted-but-diffuse witness
cluster. -/
def w9b : FName := "m:beta"

/-- The accepted-but-diffuse witness cluster. -/
def w9cluster : List FName := [w9a, w9b]

/-- Context roots of the witness cluster: three table-like roots on the
exported function, one of them shared with the method. -/
def w9cr : FName → List String :=
  fun n => if n = w9a then ["st_x", "st_y", "st_z"] else if n = w9b then ["st_x"] else []

/-- Scope table of the witness: every function is file-top-level. -/
def w9scope : Option (FName → Option String) := some (fun _ => some "top")

/-- First function of the high-coupling pair that shares a context root
but has no call edge. -/
def w4p : FName := "k:pa"

/-- Second function of the high-coupling pair that shares a context root
but has no call edge. -/
def w4q : FName := "k:qb"

/-- Context roots of the shared-root pair: everything uses the one root. -/
def w4cr : FName → List String := fun _ => ["sroot"]

/-- Call table giving the pair a single one-directional call edge. -/
def w4calls : FName → List FName := fun n => if n = w4p then [w4q] else []

/-- Reachability in an adjacency map: the spec-side notion of lying in
the same connected component. -/
inductive ReachAdj (adjacency : FName → List FName) : FName → FName → Prop
  | refl (x : FName) : ReachAdj adjacency x x
  | step {x y z : FName} (h : ReachAdj adjacency x y) (hz : z ∈ adjacency y) :
      ReachAdj adjacency x z

/-- Reachability avoiding a node set: every node on the witnessing path,
endpoints included, lies outside `avoid`.  This is what one DFS pass
explores relative to its starting visited set. -/
inductive AvoidReach (adjacency : FName → List FName) (avoid : List FName) :
    FName → FName → Prop
  | refl {x : FName} (hx : x ∉ avoid) : AvoidReach adjacency avoid x x
  | step {x y z : FName} (h : AvoidReach adjacency avoid x y) (hz : z ∈ adjacency y)
      (hnz : z ∉ avoid) : AvoidReach adjacency avoid x z

/-- One step of the outer component scan in `find_connected_components`:
skip visited start nodes, otherwise run one DFS and keep the component
when it has at least two members. -/
def fccStep (adjacency : FName → List FName) (nodes : List FName)
    (acc : List FName × List (List FName)) (node : FName) :
    List FName × List (List FName) :=
  if node ∈ acc.1 then acc
  else
    let r := dfs_collect adjacency (dfsFuel nodes adjacency) [node] acc.1 []
    if 2 ≤ r.2.length then (r.1, acc.2 ++ [r.2]) else (r.1, acc.2)

/-- Invariant of the outer component scan: the visited set is closed
under adjacency, every visited function with a neighbour lies in an
emitted component, and every emitted component is a full connected
component with at least two members. -/
def fccInvariant (adjacency : FName → List FName)
    (acc : List FName × List (List FName)) : Prop :=
  (∀ x, x ∈ acc.1 → ∀ y, y ∈ adjacency x → y ∈ acc.1)
  ∧ (∀ n, n ∈ acc.1 → (∃ m, m ∈ adjacency n) → ∃ C, C ∈ acc.2 ∧ n ∈ C)
  ∧ (∀ C, C ∈ acc.2 → 2 ≤ C.length
      ∧ ∃ x, x ∈ C ∧ ∀ y, (y ∈ C ↔ ReachAdj adjacency x y))

/-! ## Helper lemmas -/

/-- Invariance of a predicate along a left fold. -/
theorem foldl_inv {α β : Type*} (P : β → Prop) (f : β → α → β)
    (hf : ∀ st a, P st → P (f st a)) :
    ∀ (l : List α) (st : β), P st → P (l.foldl f st)
  | [], _, hst => hst
  | a :: l, st, hst => foldl_inv P f hf l (f st a) (hf st a hst)

/-- Name similarity is never negative. -/
theorem semantic_similarity_nonneg (a b : String) : 0 ≤ semantic_similarity a b := by
  unfold semantic_similarity
  dsimp only
  split_ifs with h1 h2
  · exact le_refl 0
  · positivity
  · exact le_refl 0

/-- The fanout weight is nonnegative. -/
theorem fanout_weight_of_nonneg (n : ℕ) : 0 ≤ fanout_weight_of n := by
  unfold fanout_weight_of
  exact le_min (by norm_num) (by positivity)

/-- The call density is nonnegative. -/
theorem call_density_of_nonneg (n : ℕ) (loc? : Option ℕ) : 0 ≤ call_density_of n loc? := by
  unfold call_density_of
  cases loc? with
  | none =>
    dsimp only
    exact le_min (by norm_num) (by positivity)
  | some loc =>
    dsimp only
    split_ifs with h
    · refine le_min (by norm_num) ?_
      have hm : (0 : ℚ) < max 1 (loc : ℚ) := lt_max_of_lt_left (by norm_num)
      positivity
    · exact le_refl 0

/-- The registration-pattern weight is nonnegative. -/
theorem registration_weight_of_nonneg (fn : FName) (fn_calls : List FName) :
    0 ≤ registration_weight_of fn fn_calls := by
  unfold registration_weight_of
  dsimp only
  refine le_min (by norm_num) ?_
  refine foldl_inv (fun w : ℚ => 0 ≤ w) _ ?_ fn_calls _ ?_
  · intro w a hw
    dsimp only
    have step : ∀ v : ℚ, 0 ≤ v → 0 ≤ min 1 (v + 0.1) :=
      fun v hv => le_min (by norm_num) (by linarith)
    split_ifs
    · exact step _ (step _ hw)
    · exact step _ hw
    · exact step _ hw
    · exact hw
  · split_ifs <;> norm_num

/-- The lifecycle-position weight is nonnegative. -/
theorem lifecycle_weight_of_nonneg (fn : FName) (callers : Option (FName → List FName)) :
    0 ≤ lifecycle_weight_of fn callers := by
  unfold lifecycle_weight_of
  cases callers <;> dsimp only <;> split_ifs <;>
    exact le_min (by norm_num) (by norm_num)

/-! ## Claim C2 -/

/-- C2: for every function and any inputs, the boilerplate score and the
nucleus score lie in the unit interval, and whenever the computed
boilerplate score of a function reaches 0.6 its computed nucleus score
is exactly zero. -/
theorem C2_score_bounds (fn_name : FName) (cluster : List FName)
    (calls callers : FName → List FName) (context_roots : FName → List String)
    (boilerplate_scores : FName → ℚ) (veneers : List FName) (call_graph : CallGraph)
    (func_scope : Option (FName → Option String)) (func_loc : FName → Option ℕ)
    (callerTable : Option (FName → List FName)) :
    (0 ≤ calculate_boilerplate_score fn_name calls context_roots call_graph func_loc callerTable
      ∧ calculate_boilerplate_score fn_name calls context_roots call_graph func_loc callerTable ≤ 1)
    ∧ (0 ≤ calculate_nucleus_score fn_name cluster calls callers context_roots
          boilerplate_scores veneers call_graph func_scope
      ∧ calculate_nucleus_score fn_name cluster calls callers context_roots
          boilerplate_scores veneers call_graph func_scope ≤ 1)
    ∧ ((0.6 : ℚ) ≤ calculate_boilerplate_score fn_name calls context_roots call_graph
          func_loc callerTable →
        calculate_nucleus_score fn_name cluster calls callers context_roots
          (fun g => calculate_boilerplate_score g calls context_roots call_graph func_loc callerTable)
          veneers call_graph func_scope = 0) := by
  refine ⟨?_, ?_, ?_⟩
  · unfold calculate_boilerplate_score
    dsimp only
    have h1 := fanout_weight_of_nonneg (calls fn_name).length
    have h2 := call_density_of_nonneg (calls fn_name).length (func_loc fn_name)
    have h3 := registration_weight_of_nonneg fn_name (calls fn_name)
    have h4 := lifecycle_weight_of_nonneg fn_name callerTable
    exact ⟨le_min (by norm_num) (by linarith), min_le_left _ _⟩
  · unfold calculate_nucleus_score
    by_cases h : (0.6 : ℚ) ≤ boilerplate_scores fn_name
    · rw [if_pos h]
      norm_num
    · rw [if_neg h]
      dsimp only
      exact ⟨le_max_left _ _, max_le (by norm_num) (min_le_left _ _)⟩
  · intro h
    unfold calculate_nucleus_score
    rw [if_pos h]

/-- Evaluation of the boilerplate score at the C2 witness input. -/
theorem w2_boilerplate_value :
    calculate_boilerplate_score w2name w2calls (fun _ => []) none w2loc (some w2callers)
      = 0.64 := by
  unfold calculate_boilerplate_score fanout_weight_of call_density_of
    registration_weight_of lifecycle_weight_of
  rw [show w2calls w2name = ["m:ca", "m:cb"] from by decide,
    show w2loc w2name = some 1 from by decide]
  dsimp only [List.foldl_cons, List.foldl_nil, List.length_cons, List.length_nil]
  rw [if_pos (show (registration_patterns.any
        (fun p => hasSub (lowerStr p) (lowerStr w2name))) = true from by decide),
    if_pos (show (widget_patterns.any
        (fun p => hasSub (lowerStr p) (lowerStr w2name))) = true from by decide),
    if_neg (show ¬ (registration_patterns.any
        (fun p => hasSub (lowerStr p) (lowerStr "m:ca"))) = true from by decide),
    if_neg (show ¬ (widget_patterns.any
        (fun p => hasSub (lowerStr p) (lowerStr "m:ca"))) = true from by decide),
    if_neg (show ¬ (registration_patterns.any
        (fun p => hasSub (lowerStr p) (lowerStr "m:cb"))) = true from by decide),
    if_neg (show ¬ (widget_patterns.any
        (fun p => hasSub (lowerStr p) (lowerStr "m:cb"))) = true from by decide),
    if_pos (show (lifecycle_names.any (fun lc => hasSub lc
        (lowerStr (lastPart ':' (lastPart '.' w2name))))) = true from by decide),
    if_pos (show (hasChar '.' w2name && !hasChar ':' w2name) = true from by decide),
    show (w2callers w2name).filter (fun c => !startsWithB (firstPart '.' w2name) c)
      = ["zz:caller"] from by decide]
  norm_num

/-- Witness for C2: a concrete registration-and-lifecycle function whose
boilerplate score is 0.64, so its nucleus score is forced to zero. -/
theorem C2_score_bounds_witness :
    (0.6 : ℚ) ≤ calculate_boilerplate_score w2name w2calls (fun _ => []) none
        w2loc (some w2callers)
      ∧ calculate_nucleus_score w2name [w2name] w2calls (fun _ => []) (fun _ => [])
        (fun g => calculate_boilerplate_score g w2calls (fun _ => []) none w2loc (some w2callers))
        [] none none = 0 := by
  refine ⟨by rw [w2_boilerplate_value]; norm_num, ?_⟩
  exact (C2_score_bounds w2name [w2name] w2calls (fun _ => []) (fun _ => [])
    (fun _ => (0 : ℚ)) [] none none w2loc (some w2callers)).2.2
    (by rw [w2_boilerplate_value]; norm_num)

/-! ## Claim C3 -/

set_option maxHeartbeats 2000000 in
/-- C3: the coupling of an ordered pair equals the clamp to the unit
interval of the specified sum of terms: the shared-context term, the
shared-identifier term, the direct-call bonus, minus the callee-fanout
penalty, minus the asymmetric-call penalty, plus the gated name
similarity, plus the action-word bonus for call-connected pairs. -/
theorem C3_coupling_formula (context_roots idents : FName → List String)
    (calls : FName → List FName) (a b : FName) :
    coupling context_roots idents calls a b = coupling_spec context_roots idents calls a b := by
  have hs : 0 ≤ semantic_similarity a b := semantic_similarity_nonneg a b
  unfold coupling coupling_spec
  dsimp only
  simp only [Bool.or_eq_true]
  rcases eq_or_lt_of_le hs with hz | hpos
  · rw [show semantic_similarity a b = 0 from hz.symm]
    congr 1
    congr 1
    by_cases hA : (context_roots a).inter (context_roots b) ≠ [] <;>
      by_cases hB : 3 ≤ ((idents a).inter (idents b)).length <;>
      by_cases hC : b ∈ calls a <;>
      by_cases hD : a ∈ calls b <;>
      by_cases hE : (action_words.any fun word => hasSub word (lowerStr a)) = true
        ∨ (action_words.any fun word => hasSub word (lowerStr b)) = true <;>
      simp only [ne_eq, hA, hB, hC, hD, hE, lt_self_iff_false,
        true_and, and_true, false_and, and_false, true_or, or_true, false_or, or_false,
        not_true, not_false_eq_true, not_false_iff, if_true, if_false, ite_true, ite_false] <;>
      ring_nf
  · congr 1
    congr 1
    by_cases hA : (context_roots a).inter (context_roots b) ≠ [] <;>
      by_cases hB : 3 ≤ ((idents a).inter (idents b)).length <;>
      by_cases hC : b ∈ calls a <;>
      by_cases hD : a ∈ calls b <;>
      by_cases hE : (action_words.any fun word => hasSub word (lowerStr a)) = true
        ∨ (action_words.any fun word => hasSub word (lowerStr b)) = true <;>
      simp only [ne_eq, hA, hB, hC, hD, hE, hpos,
        true_and, and_true, false_and, and_false, true_or, or_true, false_or, or_false,
        not_true, not_false_eq_true, not_false_iff, if_true, if_false, ite_true, ite_false] <;>
      ring_nf

/-! ## Claim C10 -/

/-- String concatenation concatenates the character data. -/
theorem str_data_append (a b : String) : (a ++ b).data = a.data ++ b.data := rfl

/-- Rebuilding a string from its character data is the identity. -/
theorem str_mk_data (s : String) : String.mk s.data = s := rfl

/-- A `takeWhile` over a list whose first blocked character sits right
after a fully accepted prefix returns exactly that prefix. -/
theorem takeWhile_append_blocked (p : Char → Bool) :
    ∀ (l1 : List Char) (c0 : Char) (l2 : List Char),
      (∀ c ∈ l1, p c = true) → p c0 = false →
      (l1 ++ c0 :: l2).takeWhile p = l1
  | [], c0, l2, _, hc0 => by simp [List.takeWhile, hc0]
  | c :: l1, c0, l2, hl, hc0 => by
    have hc : p c = true := hl c (List.mem_cons_self c l1)
    rw [List.cons_append, List.takeWhile_cons_of_pos hc]
    exact congrArg (List.cons c)
      (takeWhile_append_blocked p l1 c0 l2 (fun d hd => hl d (List.mem_cons_of_mem c hd)) hc0)

/-- The module component of a qualified name is the module it was
qualified with, whenever the module name is clean. -/
theorem modulePart_qualify (fn m : String) (hm : cleanModuleName m) :
    modulePart (qualify_function_name fn m) = m := by
  have hall : ∀ c ∈ m.data, (fun c => !(c = '.' || c = ':')) c = true := by
    intro c hc
    rcases hm c hc with ⟨h1, h2⟩
    simp [h1, h2]
  unfold qualify_function_name modulePart
  split_ifs
  · rw [show (m ++ "." ++ strDrop 2 fn).data = m.data ++ '.' :: (strDrop 2 fn).data from by
      rw [str_data_append, str_data_append, List.append_assoc]; rfl]
    rw [takeWhile_append_blocked _ m.data '.' _ hall (by decide)]
  · rw [show (m ++ ":" ++ fn).data = m.data ++ ':' :: fn.data from by
      rw [str_data_append, str_data_append, List.append_assoc]; rfl]
    rw [takeWhile_append_blocked _ m.data ':' _ hall (by decide)]

/-- C10: a recorded call edge qualifies the callee with the calling
file's module name (`M.x` becomes `caller_module.x`, anything else
becomes `caller_module:x`); consequently, when module names are clean
file stems, a call recorded in one module can never equal the registry
name of a function defined in a different module. -/
theorem C10_callee_qualification (callee target_fn caller_module target_module : String)
    (hne : caller_module ≠ target_module)
    (hcm : cleanModuleName caller_module) (htm : cleanModuleName target_module) :
    (qualified_callee caller_module callee =
      if startsWithB "M." callee then caller_module ++ "." ++ strDrop 2 callee
      else caller_module ++ ":" ++ callee)
    ∧ qualified_callee caller_module callee ≠ qualify_function_name target_fn target_module := by
  constructor
  · rfl
  · intro heq
    have h1 : modulePart (qualify_function_name callee caller_module) = caller_module :=
      modulePart_qualify callee caller_module hcm
    have h2 : modulePart (qualify_function_name target_fn target_module) = target_module :=
      modulePart_qualify target_fn target_module htm
    rw [qualified_callee] at heq
    rw [heq, h2] at h1
    exact hne h1.symm

/-- Witness for C10: a call to `M.go` recorded in module `alpha` does
not resolve to the entry of `M.go` defined in module `beta`. -/
theorem C10_callee_qualification_witness :
    ("alpha" : String) ≠ "beta"
    ∧ cleanModuleName "alpha" ∧ cleanModuleName "beta"
    ∧ qualified_callee "alpha" "M.go" ≠ qualify_function_name "M.go" "beta" := by
  refine ⟨by decide, by decide, by decide, ?_⟩
  exact (C10_callee_qualification "M.go" "M.go" "alpha" "beta" (by decide)
    (by decide) (by decide)).2

/-! ## Claim C7 -/

/-- C7 (code bug): evaluation of both extraction models at an unreadable
file.  The main pipeline's `parse_lua` has no exception handler, so the
run aborts with the propagated error instead of skipping the file, and
the legacy `parse_lua` returns empty structures while printing no
diagnostic, so the file is dropped silently. -/
theorem C7_unreadable_file_behavior (parse_body : String → ModParsedFile)
    (good : String) :
    parse_lua_main parse_body none = .error ()
    ∧ analyze_extract_all parse_body [some good, none] = .error ()
    ∧ (parse_lua_mod parse_body none).1 = emptyModParse
    ∧ (parse_lua_mod parse_body none).2 = [] :=
  ⟨rfl, rfl, rfl, rfl⟩

/-! ## Claim C5 -/

/-- Membership in the adjacency map after recording the undirected edge
between two distinct names. -/
theorem mem_updAdj (adj : FName → List FName) (a b x y : FName) (hab : a ≠ b) :
    x ∈ updAdj adj a b y ↔ (x ∈ adj y ∨ (y = a ∧ x = b) ∨ (y = b ∧ x = a)) := by
  unfold updAdj
  by_cases hya : y = a
  · rw [if_pos hya, List.mem_insert_iff]
    subst hya
    constructor
    · rintro (hx | hx)
      · exact Or.inr (Or.inl ⟨rfl, hx⟩)
      · exact Or.inl hx
    · rintro (hx | ⟨_, hx⟩ | ⟨hy, hx⟩)
      · exact Or.inr hx
      · exact Or.inl hx
      · exact absurd hy hab
  · rw [if_neg hya]
    by_cases hyb : y = b
    · rw [if_pos hyb, List.mem_insert_iff]
      subst hyb
      constructor
      · rintro (hx | hx)
        · exact Or.inr (Or.inr ⟨rfl, hx⟩)
        · exact Or.inl hx
      · rintro (hx | ⟨hy, hx⟩ | ⟨_, hx⟩)
        · exact Or.inr hx
        · exact absurd hy hya
        · exact Or.inl hx
    · rw [if_neg hyb]
      simp [hya, hyb]

/-- The Phase A loop step preserves symmetry of the adjacency map. -/
theorem edgeStep_symm (structural : List FName) (calls : FName → List FName)
    (context_roots idents : FName → List String) (st : PhaseAState) (a b : FName)
    (hP : ∀ x y, x ∈ st.adj y ↔ y ∈ st.adj x) :
    ∀ x y, x ∈ (edgeStep structural calls context_roots idents st a b).adj y
      ↔ y ∈ (edgeStep structural calls context_roots idents st a b).adj x := by
  intro x y
  unfold edgeStep
  by_cases h1 : b ∉ structural ∨ a = b
  · rw [if_pos h1]
    exact hP x y
  · rw [if_neg h1]
    dsimp only
    by_cases h2 : sortedPair a b ∈ st.seen
    · rw [if_pos h2]
      exact hP x y
    · rw [if_neg h2]
      dsimp only
      by_cases h3 : CLUSTER_THRESHOLD ≤ coupling context_roots idents calls a b
      · rw [if_pos h3]
        have hab : a ≠ b := fun h => h1 (Or.inr h)
        rw [mem_updAdj st.adj a b x y hab, mem_updAdj st.adj a b y x hab, hP x y]
        tauto
      · rw [if_neg h3]
        exact hP x y

/-- C5 (amended): the adjacency relation built by cluster discovery is
symmetric as a relation: whenever `b` is recorded adjacent to `a`, `a`
is recorded adjacent to `b` — for any enumeration order and any inputs.
The counterexample `C5_counterexample` shows that the edge condition is
not the disjunction of the two direction-sensitive coupling tests. -/
theorem C5_adjacency_symmetric (order structural : List FName)
    (calls : FName → List FName) (context_roots idents : FName → List String)
    (x y : FName) :
    x ∈ (build_structure_edges order structural calls context_roots idents).adj y
      ↔ y ∈ (build_structure_edges order structural calls context_roots idents).adj x := by
  unfold build_structure_edges
  refine foldl_inv (fun st : PhaseAState => ∀ x y, x ∈ st.adj y ↔ y ∈ st.adj x)
    _ ?_ order _ (by simp) x y
  intro st a hst
  exact foldl_inv (fun st : PhaseAState => ∀ x y, x ∈ st.adj y ↔ y ∈ st.adj x)
    _ (fun st' b hst' => edgeStep_symm structural calls context_roots idents st' a b hst')
    (calls a) st hst

/-- Token-set Jaccard similarity of the two pair members is one third:
they share the module token only. -/
theorem w5_sim : semantic_similarity w5a w5b = 1/3 ∧ semantic_similarity w5b w5a = 1/3 := by
  constructor <;>
  · unfold semantic_similarity
    rw [show tokenize_identifier w5a = ["m", "aa"] from by decide,
      show tokenize_identifier w5b = ["m", "bb"] from by decide]
    rw [if_neg (by decide)]
    dsimp only
    first
      | rw [show (["m", "aa"].inter ["m", "bb"]).length = 1 from by decide,
          show (["m", "aa"].union ["m", "bb"]).length = 3 from by decide]
      | rw [show (["m", "bb"].inter ["m", "aa"]).length = 1 from by decide,
          show (["m", "bb"].union ["m", "aa"]).length = 3 from by decide]
    norm_num

set_option maxHeartbeats 1000000 in
/-- Coupling of the mutual pair evaluated in the direction from the
busy caller: below the clustering threshold. -/
theorem w5_coupling_ab : coupling wEmpty wEmpty w5calls w5a w5b = 71/300 := by
  unfold coupling
  rw [w5_sim.1]
  norm_num +decide [wEmpty, show w5calls w5a = [w5b, "m:uu", "m:ww"] from by decide,
    show w5calls w5b = [w5a] from by decide,
    show (w5b ∈ [w5b, "m:uu", "m:ww"]) from by decide,
    show (w5a ∈ [w5a]) from by decide,
    show (action_words.any fun word => hasSub word (lowerStr w5a)) = false from by decide,
    show (action_words.any fun word => hasSub word (lowerStr w5b)) = false from by decide]

set_option maxHeartbeats 1000000 in
/-- Coupling of the mutual pair evaluated in the other direction: above
the clustering threshold. -/
theorem w5_coupling_ba : coupling wEmpty wEmpty w5calls w5b w5a = 51/100 := by
  unfold coupling
  rw [w5_sim.2]
  norm_num +decide [wEmpty, show w5calls w5a = [w5b, "m:uu", "m:ww"] from by decide,
    show w5calls w5b = [w5a] from by decide,
    show (w5b ∈ [w5b, "m:uu", "m:ww"]) from by decide,
    show (w5a ∈ [w5a]) from by decide,
    show (action_words.any fun word => hasSub word (lowerStr w5a)) = false from by decide,
    show (action_words.any fun word => hasSub word (lowerStr w5b)) = false from by decide]

set_option maxHeartbeats 1000000 in
/-- Phase A evaluation on the mutual pair with enumeration order
`m:aa` before `m:bb`: the pair is evaluated only in the below-threshold
direction, so no adjacency edge is recorded. -/
theorem w5_build_order1_adj :
    (build_structure_edges [w5a, w5b] [w5a, w5b] w5calls wEmpty wEmpty).adj w5a = []
    ∧ (build_structure_edges [w5a, w5b] [w5a, w5b] w5calls wEmpty wEmpty).adj w5b = [] := by
  unfold build_structure_edges
  rw [List.foldl_cons, show w5calls w5a = [w5b, "m:uu", "m:ww"] from by decide]
  norm_num +decide [edgeStep, sortedPair, updAdj, MIN_EDGE, CLUSTER_THRESHOLD,
    w5_coupling_ab, w5_coupling_ba,
    show w5calls w5a = [w5b, "m:uu", "m:ww"] from by decide,
    show w5calls w5b = [w5a] from by decide]

set_option maxHeartbeats 1000000 in
/-- Phase A evaluation on the mutual pair with enumeration order
`m:bb` before `m:aa`: the pair is evaluated in the above-threshold
direction and the adjacency edge is recorded both ways. -/
theorem w5_build_order2_adj :
    (build_structure_edges [w5b, w5a] [w5a, w5b] w5calls wEmpty wEmpty).adj w5a = [w5b]
    ∧ (build_structure_edges [w5b, w5a] [w5a, w5b] w5calls wEmpty wEmpty).adj w5b = [w5a] := by
  unfold build_structure_edges
  rw [List.foldl_cons, show w5calls w5b = [w5a] from by decide]
  norm_num +decide [edgeStep, sortedPair, updAdj, MIN_EDGE, CLUSTER_THRESHOLD,
    w5_coupling_ab, w5_coupling_ba,
    show w5calls w5a = [w5b, "m:uu", "m:ww"] from by decide,
    show w5calls w5b = [w5a] from by decide]

/-- C5 (counterexample): on the mutual pair with enumeration order
`m:aa` before `m:bb`, the coupling in the direction from `m:bb` meets
the 0.25 threshold, yet no adjacency edge exists: the OR of the two
direction-sensitive coupling tests is not what the code implements. -/
theorem C5_counterexample :
    CLUSTER_THRESHOLD ≤ coupling wEmpty wEmpty w5calls w5b w5a
    ∧ w5a ≠ w5b
    ∧ w5b ∉ (build_structure_edges [w5a, w5b] [w5a, w5b] w5calls wEmpty wEmpty).adj w5a
    ∧ w5a ∉ (build_structure_edges [w5a, w5b] [w5a, w5b] w5calls wEmpty wEmpty).adj w5b := by
  refine ⟨?_, by decide, ?_, ?_⟩
  · rw [w5_coupling_ba]
    norm_num [CLUSTER_THRESHOLD]
  · rw [w5_build_order1_adj.1]
    exact List.not_mem_nil w5b
  · rw [w5_build_order1_adj.2]
    exact List.not_mem_nil w5a

/-! ## Claim C8 -/

/-- C8 (code bug): the very same project data produces different raw
cluster candidates under the two possible iteration orders of the
structural-function set — with `m:aa` enumerated first the mutual pair
is evaluated in the below-threshold direction and no cluster exists;
with `m:bb` first the pair is evaluated in the above-threshold direction
and a two-function cluster appears.  Determinism independent of set
iteration order therefore fails. -/
theorem C8_iteration_order_dependence :
    discover_clusters [w5a, w5b] [w5a, w5b] w5calls wEmpty wEmpty = []
    ∧ discover_clusters [w5b, w5a] [w5a, w5b] w5calls wEmpty wEmpty = [[w5a, w5b]]
    ∧ discover_clusters [w5a, w5b] [w5a, w5b] w5calls wEmpty wEmpty
      ≠ discover_clusters [w5b, w5a] [w5a, w5b] w5calls wEmpty wEmpty := by
  have h1 : discover_clusters [w5a, w5b] [w5a, w5b] w5calls wEmpty wEmpty = [] := by
    unfold discover_clusters
    dsimp only
    unfold find_connected_components dfsFuel
    simp +decide [dfs_collect, w5_build_order1_adj.1, w5_build_order1_adj.2]
  have h2 : discover_clusters [w5b, w5a] [w5a, w5b] w5calls wEmpty wEmpty = [[w5a, w5b]] := by
    unfold discover_clusters
    dsimp only
    unfold find_connected_components dfsFuel
    simp +decide [dfs_collect, w5_build_order2_adj.1, w5_build_order2_adj.2]
  refine ⟨h1, h2, ?_⟩
  rw [h1, h2]
  decide

/-! ## Claim C1 -/

/-- A filter keeps the whole length exactly when every member passes. -/
theorem length_le_filter_iff {α : Type*} (p : α → Bool) (l : List α) :
    l.length ≤ (l.filter p).length ↔ ∀ x ∈ l, p x = true := by
  constructor
  · intro h
    have hs : (l.filter p).Sublist l := List.filter_sublist l
    have hlen : (l.filter p).length = l.length := le_antisymm hs.length_le h
    have heq : l.filter p = l := hs.eq_of_length hlen
    intro x hx
    exact List.filter_eq_self.mp heq x hx
  · intro h
    rw [List.filter_eq_self.mpr h]

/-- A filter is empty exactly when no member passes. -/
theorem filter_length_zero_iff {α : Type*} (p : α → Bool) (l : List α) :
    (l.filter p).length = 0 ↔ ∀ x ∈ l, ¬ p x = true := by
  rw [List.length_eq_zero, List.filter_eq_nil]

/-- The left fold of `max` dominates its seed and every list element. -/
theorem le_foldl_max (l : List ℚ) :
    ∀ a : ℚ, a ≤ l.foldl max a ∧ ∀ x ∈ l, x ≤ l.foldl max a := by
  induction l with
  | nil =>
    intro a
    exact ⟨le_refl a, by simp⟩
  | cons y ys ih =>
    intro a
    obtain ⟨h1, h2⟩ := ih (max a y)
    refine ⟨le_trans (le_max_left a y) h1, ?_⟩
    intro x hx
    rcases List.mem_cons.mp hx with rfl | hx
    · exact le_trans (le_max_right a x) h1
    · exact h2 x hx

/-- The left fold of `max` is the seed or one of the elements. -/
theorem foldl_max_mem (l : List ℚ) : ∀ a : ℚ, l.foldl max a ∈ a :: l := by
  induction l with
  | nil =>
    intro a
    simp
  | cons y ys ih =>
    intro a
    rw [List.foldl_cons]
    rcases List.mem_cons.mp (ih (max a y)) with h | h
    · rcases max_choice a y with hm | hm
      · rw [h, hm]
        exact List.mem_cons_self _ _
      · rw [h, hm]
        exact List.mem_cons_of_mem _ (List.mem_cons_self _ _)
    · exact List.mem_cons_of_mem _ (List.mem_cons_of_mem _ h)

/-- Every element is bounded by `maxQ`. -/
theorem le_maxQ {l : List ℚ} {x : ℚ} (hx : x ∈ l) : x ≤ maxQ l := by
  cases l with
  | nil => cases hx
  | cons y ys =>
    unfold maxQ
    rcases List.mem_cons.mp hx with rfl | hx
    · exact (le_foldl_max ys x).1
    · exact (le_foldl_max ys y).2 x hx

/-- On a nonempty list, `maxQ` is attained by some element. -/
theorem maxQ_mem {l : List ℚ} (h : l ≠ []) : maxQ l ∈ l := by
  cases l with
  | nil => exact absurd rfl h
  | cons y ys => exact foldl_max_mem ys y

/-- Filtering by a weaker predicate keeps at least as many elements. -/
theorem filter_length_mono_imp {α : Type*} (p q : α → Bool) (l : List α)
    (h : ∀ x ∈ l, p x = true → q x = true) :
    (l.filter p).length ≤ (l.filter q).length := by
  induction l with
  | nil => simp
  | cons y ys ih =>
    have hys := ih (fun x hx => h x (List.mem_cons_of_mem y hx))
    rw [List.filter_cons, List.filter_cons]
    by_cases hp : p y = true
    · rw [if_pos hp, if_pos (h y (List.mem_cons_self y ys) hp)]
      simpa using hys
    · rw [if_neg hp]
      by_cases hq : q y = true
      · rw [if_pos hq]
        refine le_trans hys ?_
        simp
      · rw [if_neg hq]
        exact hys

/-- The competing-nuclei test of the code (at least two members of the
nuclei list within 0.05 of the top nucleus score) agrees with the spec
phrasing (at least two cluster members within 0.05 of the maximum
score), whenever more than one member clears the nucleus threshold. -/
theorem competing_equiv (cluster : List FName) (ns : FName → ℚ)
    (h1 : 1 < (cluster.filter (fun fn => NUCLEUS_THRESHOLD ≤ ns fn)).length) :
    (1 < ((cluster.filter (fun fn => NUCLEUS_THRESHOLD ≤ ns fn)).filter
        (fun fn => |ns fn - maxQ ((cluster.filter
          (fun fn => NUCLEUS_THRESHOLD ≤ ns fn)).map ns)| ≤ (0.05 : ℚ))).length)
      ↔ 2 ≤ (cluster.filter (fun fn => maxQ (cluster.map ns) - 0.05 ≤ ns fn)).length := by
  classical
  set nuclei := cluster.filter (fun fn => decide (NUCLEUS_THRESHOLD ≤ ns fn)) with hnuclei
  have hne : nuclei ≠ [] := by
    intro h
    rw [h] at h1
    simp at h1
  have hmapne : nuclei.map ns ≠ [] := by
    intro h
    exact hne (List.map_eq_nil_iff.mp h)
  have hsub : ∀ x ∈ nuclei, x ∈ cluster := by
    intro x hx
    exact (List.mem_filter.mp hx).1
  have htop_le : maxQ (nuclei.map ns) ≤ maxQ (cluster.map ns) := by
    obtain ⟨g, hg, hgv⟩ := List.mem_map.mp (maxQ_mem hmapne)
    rw [← hgv]
    exact le_maxQ (List.mem_map.mpr ⟨g, hsub g hg, rfl⟩)
  have hT_top : NUCLEUS_THRESHOLD ≤ maxQ (nuclei.map ns) := by
    obtain ⟨g, hg, hgv⟩ := List.mem_map.mp (maxQ_mem hmapne)
    have hTg : NUCLEUS_THRESHOLD ≤ ns g := of_decide_eq_true (List.mem_filter.mp hg).2
    rw [← hgv]
    exact hTg
  have hmax_le : maxQ (cluster.map ns) ≤ maxQ (nuclei.map ns) := by
    have hclne : cluster.map ns ≠ [] := by
      intro h
      have hcl : cluster = [] := List.map_eq_nil_iff.mp h
      rw [hnuclei, hcl] at hne
      simp at hne
    obtain ⟨f0, hf0, hf0v⟩ := List.mem_map.mp (maxQ_mem hclne)
    have hf0T : NUCLEUS_THRESHOLD ≤ ns f0 := by
      rw [hf0v]
      exact le_trans hT_top htop_le
    have hf0n : f0 ∈ nuclei := by
      rw [hnuclei]
      exact List.mem_filter.mpr ⟨hf0, decide_eq_true hf0T⟩
    rw [← hf0v]
    exact le_maxQ (List.mem_map.mpr ⟨f0, hf0n, rfl⟩)
  have heqmax : maxQ (nuclei.map ns) = maxQ (cluster.map ns) :=
    le_antisymm htop_le hmax_le
  have hband : ∀ fn ∈ cluster,
      (|ns fn - maxQ (nuclei.map ns)| ≤ (0.05 : ℚ)
        ↔ maxQ (cluster.map ns) - 0.05 ≤ ns fn) := by
    intro fn hfn
    have hle : ns fn ≤ maxQ (cluster.map ns) :=
      le_maxQ (List.mem_map.mpr ⟨fn, hfn, rfl⟩)
    rw [heqmax, abs_sub_le_iff]
    constructor
    · intro h2
      linarith [h2.1]
    · intro h2
      constructor <;> linarith
  rw [List.filter_filter]
  by_cases hbig : NUCLEUS_THRESHOLD + 0.05 ≤ maxQ (cluster.map ns)
  · -- high top score: every member in the band clears the threshold
    have hpoint : ∀ fn ∈ cluster,
        (decide (maxQ (cluster.map ns) - 0.05 ≤ ns fn) : Bool)
          = (decide (|ns fn - maxQ (nuclei.map ns)| ≤ (0.05 : ℚ))
              && decide (NUCLEUS_THRESHOLD ≤ ns fn)) := by
      intro fn hfn
      by_cases hq : maxQ (cluster.map ns) - 0.05 ≤ ns fn
      · have hp : NUCLEUS_THRESHOLD ≤ ns fn := by linarith
        have hb : |ns fn - maxQ (nuclei.map ns)| ≤ (0.05 : ℚ) := (hband fn hfn).mpr hq
        simp [hq, hp, hb]
      · have hb : ¬ |ns fn - maxQ (nuclei.map ns)| ≤ (0.05 : ℚ) := by
          intro hc
          exact hq ((hband fn hfn).mp hc)
        simp [hq, hb]
    rw [List.filter_congr hpoint]
    constructor <;> intro h <;> omega
  · -- low top score: both tests succeed outright
    push_neg at hbig
    have hleft : cluster.filter (fun a =>
        decide (|ns a - maxQ (nuclei.map ns)| ≤ (0.05 : ℚ))
          && decide (NUCLEUS_THRESHOLD ≤ ns a)) = nuclei := by
      rw [hnuclei, ← List.filter_filter]
      apply List.filter_eq_self.mpr
      intro fn hfn
      apply decide_eq_true
      apply (hband fn (hsub fn hfn)).mpr
      have hTfn : NUCLEUS_THRESHOLD ≤ ns fn := of_decide_eq_true (List.mem_filter.mp hfn).2
      linarith
    have hright : 2 ≤ (cluster.filter
        (fun fn => decide (maxQ (cluster.map ns) - 0.05 ≤ ns fn))).length := by
      have h1x : 1 < (cluster.filter (fun fn => decide (NUCLEUS_THRESHOLD ≤ ns fn))).length :=
        hnuclei ▸ h1
      have hmono := filter_length_mono_imp
        (fun fn => decide (NUCLEUS_THRESHOLD ≤ ns fn))
        (fun fn => decide (maxQ (cluster.map ns) - 0.05 ≤ ns fn)) cluster ?_
      · omega
      · intro x _ hx
        have hTx : NUCLEUS_THRESHOLD ≤ ns x := of_decide_eq_true hx
        apply decide_eq_true
        linarith
    constructor
    · intro _
      exact hright
    · intro _
      rw [hleft]
      exact h1

/-- C1: the hard rejection gates evaluate in the fixed order
boilerplate-dominated, no-nucleus, competing-nuclei, and the first
matching gate short-circuits the rest; the boilerplate gate matches when
all of the top-3 highest-scoring members have boilerplate score at least
0.6 and at least half of the cluster does, or at least 67 percent of the
members match lifecycle naming patterns; the no-nucleus gate matches
when no member reaches nucleus score 0.42; the competing gate matches
when more than one member reaches 0.42 and the top two scores lie
within 0.05 of each other; a cluster matching no gate is accepted. -/
theorem C1_gate_order (cluster : List FName) (calls callers : FName → List FName)
    (context_roots : FName → List String) (veneers : List FName)
    (call_graph : CallGraph) (func_scope : Option (FName → Option String)) :
    validate_cluster cluster calls callers context_roots veneers call_graph func_scope
      = gates_spec cluster calls callers context_roots veneers call_graph func_scope := by
  unfold validate_cluster gates_spec
  dsimp only
  set bscore := gate_boilerplate_scores calls context_roots with hbdef
  set nscore :=
    gate_nucleus_scores cluster calls callers context_roots veneers call_graph func_scope
    with hndef
  have heq1 :
      (((sortDescBy nscore cluster).take 3).length
          ≤ (((sortDescBy nscore cluster).take 3).filter
              (fun fn => (0.6 : ℚ) ≤ bscore fn)).length
        ∧ (0.5 : ℚ) ≤ ((cluster.filter (fun fn => (0.6 : ℚ) ≤ bscore fn)).length : ℚ)
            / max 1 (cluster.length : ℚ))
        ∨ (0.67 : ℚ) ≤ ((cluster.filter is_lifecycle_fn).length : ℚ)
            / max 1 (cluster.length : ℚ)
      ↔ ((∀ fn ∈ (sortDescBy nscore cluster).take 3, (0.6 : ℚ) ≤ bscore fn)
          ∧ (0.5 : ℚ) ≤ ((cluster.filter (fun fn => (0.6 : ℚ) ≤ bscore fn)).length : ℚ)
              / max 1 (cluster.length : ℚ))
        ∨ (0.67 : ℚ) ≤ ((cluster.filter is_lifecycle_fn).length : ℚ)
            / max 1 (cluster.length : ℚ) := by
    rw [length_le_filter_iff]
    simp only [decide_eq_true_eq]
  have heq2 :
      (cluster.filter (fun fn => NUCLEUS_THRESHOLD ≤ nscore fn)).length = 0
        ↔ ∀ fn ∈ cluster, nscore fn < NUCLEUS_THRESHOLD := by
    rw [filter_length_zero_iff]
    simp only [decide_eq_true_eq, not_le]
  by_cases h1 : (((sortDescBy nscore cluster).take 3).length
        ≤ (((sortDescBy nscore cluster).take 3).filter
            (fun fn => (0.6 : ℚ) ≤ bscore fn)).length
      ∧ (0.5 : ℚ) ≤ ((cluster.filter (fun fn => (0.6 : ℚ) ≤ bscore fn)).length : ℚ)
          / max 1 (cluster.length : ℚ))
      ∨ (0.67 : ℚ) ≤ ((cluster.filter is_lifecycle_fn).length : ℚ)
          / max 1 (cluster.length : ℚ)
  · rw [if_pos h1, if_pos (heq1.mp h1)]
  · rw [if_neg h1, if_neg (fun hc => h1 (heq1.mpr hc))]
    by_cases h2 : (cluster.filter (fun fn => NUCLEUS_THRESHOLD ≤ nscore fn)).length = 0
    · rw [if_pos h2, if_pos (heq2.mp h2)]
    · rw [if_neg h2, if_neg (fun hc => h2 (heq2.mpr hc))]
      by_cases h3 : 1 < (cluster.filter (fun fn => NUCLEUS_THRESHOLD ≤ nscore fn)).length
      · rw [if_pos h3]
        have hcomp := competing_equiv cluster nscore h3
        by_cases h4 : 1 < ((cluster.filter (fun fn => NUCLEUS_THRESHOLD ≤ nscore fn)).filter
            (fun fn => |nscore fn - maxQ ((cluster.filter
              (fun fn => NUCLEUS_THRESHOLD ≤ nscore fn)).map nscore)| ≤ (0.05 : ℚ))).length
        · rw [if_pos h4, if_pos ⟨h3, hcomp.mp h4⟩]
        · rw [if_neg h4, if_neg (fun hc => h4 (hcomp.mpr hc.2))]
      · rw [if_neg h3, if_neg (fun hc => h3 hc.1)]

/-! ## Claim C6 -/

/-- Insertion into a descending-sorted list preserves the elements. -/
theorem mem_insertDescBy (f : FName → ℚ) (x y : FName) :
    ∀ l : List FName, y ∈ insertDescBy f x l ↔ y = x ∨ y ∈ l
  | [] => by simp [insertDescBy]
  | z :: zs => by
    unfold insertDescBy
    split_ifs with h
    · rw [List.mem_cons, mem_insertDescBy f x y zs, List.mem_cons]
      tauto
    · simp only [List.mem_cons]

/-- The stable descending sort preserves the elements. -/
theorem mem_sortDescBy (f : FName → ℚ) (y : FName) :
    ∀ l : List FName, y ∈ sortDescBy f l ↔ y ∈ l
  | [] => Iff.rfl
  | x :: xs => by
    unfold sortDescBy
    rw [mem_insertDescBy f x y (sortDescBy f xs), mem_sortDescBy f y xs, List.mem_cons]

/-- The size loop of proto-nucleus detection returns the prefix of the
first accepted size, and rejects every size tried before it. -/
theorem proto_try_sizes_first (cs : List FName) (ns : FName → ℚ)
    (cr : FName → List String) (bs : FName → ℚ) (calls : FName → List FName) :
    ∀ sizes : List ℕ, sizes.Sorted (· < ·) →
      (proto_try_sizes cs ns cr bs calls sizes = []
        ∧ ∀ s ∈ sizes, ¬ proto_accept cs ns cr bs calls s)
      ∨ (∃ s ∈ sizes, proto_try_sizes cs ns cr bs calls sizes = cs.take s
          ∧ proto_accept cs ns cr bs calls s
          ∧ ∀ s' ∈ sizes, s' < s → ¬ proto_accept cs ns cr bs calls s')
  | [], _ => Or.inl ⟨rfl, by simp⟩
  | s :: rest, hsorted => by
    have hsorted' := (List.sorted_cons.mp hsorted).2
    have hlt := (List.sorted_cons.mp hsorted).1
    unfold proto_try_sizes
    by_cases hstr : ((cs.take s).map ns).sum / ((cs.take s).length : ℚ) < 0.45
    · rw [if_pos hstr]
      have hnot : ¬ proto_accept cs ns cr bs calls s := fun hacc => hacc.1 hstr
      rcases proto_try_sizes_first cs ns cr bs calls rest hsorted' with ⟨hres, hall⟩ | ⟨t, ht, hres, hacc, hmin⟩
      · refine Or.inl ⟨hres, ?_⟩
        intro u hu
        rcases List.mem_cons.mp hu with rfl | hu
        · exact hnot
        · exact hall u hu
      · refine Or.inr ⟨t, List.mem_cons_of_mem s ht, hres, hacc, ?_⟩
        intro u hu hut
        rcases List.mem_cons.mp hu with rfl | hu
        · exact hnot
        · exact hmin u hu hut
    · rw [if_neg hstr]
      dsimp only
      by_cases hacc : ((match sharedProtoRoots cr bs (cs.take s) with
          | some l => decide (l ≠ [])
          | none => false) && anyRelatedPair calls (cs.take s)) = true
      · rw [if_pos hacc]
        refine Or.inr ⟨s, List.mem_cons_self s rest, rfl, ⟨hstr, hacc⟩, ?_⟩
        intro u hu hus
        rcases List.mem_cons.mp hu with rfl | hu
        · exact absurd hus (lt_irrefl u)
        · exact absurd hus (not_lt_of_gt (hlt u hu))
      · rw [if_neg hacc]
        have hnot : ¬ proto_accept cs ns cr bs calls s := fun h => hacc h.2
        rcases proto_try_sizes_first cs ns cr bs calls rest hsorted' with ⟨hres, hall⟩ | ⟨t, ht, hres, haccT, hmin⟩
        · refine Or.inl ⟨hres, ?_⟩
          intro u hu
          rcases List.mem_cons.mp hu with rfl | hu
          · exact hnot
          · exact hall u hu
        · refine Or.inr ⟨t, List.mem_cons_of_mem s ht, hres, haccT, ?_⟩
          intro u hu hut
          rcases List.mem_cons.mp hu with rfl | hu
          · exact hnot
          · exact hmin u hu hut

/-- C6 (counterexample): two concrete two-function clusters refuting the
claim as stated.  First, both members score exactly 0.40 (inside
`[0.40, 0.55)`), share a context root and call each other, yet no
proto-nucleus is returned, because the mean 0.40 is below the 0.45 bar
the claim itself requires elsewhere.  Second, both members score 0.50
with mean 0.50, share a root, and share a caller (one hop), yet no
proto-nucleus is returned, because the code checks direct calls and
shared callees only, never shared callers. -/
theorem C6_counterexample :
    ((2/5 : ℚ) ≤ w6ns1 w6p ∧ w6ns1 w6p < 11/20)
    ∧ ((2/5 : ℚ) ≤ w6ns1 w6q ∧ w6ns1 w6q < 11/20)
    ∧ (w6cr w6p).inter (w6cr w6q) ≠ []
    ∧ w6q ∈ w6calls1 w6p ∧ w6p ∈ w6calls1 w6q
    ∧ detect_proto_nucleus [w6p, w6q] w6ns1 w6cr (fun _ => 0) w6calls1 = []
    ∧ ((2/5 : ℚ) ≤ w6ns2 w6p ∧ w6ns2 w6p < 11/20)
    ∧ ((2/5 : ℚ) ≤ w6ns2 w6q ∧ w6ns2 w6q < 11/20)
    ∧ (9/20 : ℚ) ≤ (w6ns2 w6p + w6ns2 w6q) / 2
    ∧ w6p ∈ w6calls2 "n:rr" ∧ w6q ∈ w6calls2 "n:rr"
    ∧ detect_proto_nucleus [w6p, w6q] w6ns2 w6cr (fun _ => 0) w6calls2 = [] := by
  refine ⟨⟨by norm_num [w6ns1, w6p, w6q], by norm_num [w6ns1, w6p, w6q]⟩,
    ⟨by norm_num [w6ns1, w6p, w6q], by norm_num [w6ns1, w6p, w6q]⟩,
    by decide, by decide, by decide, ?_,
    ⟨by norm_num [w6ns2, w6p, w6q], by norm_num [w6ns2, w6p, w6q]⟩,
    ⟨by norm_num [w6ns2, w6p, w6q], by norm_num [w6ns2, w6p, w6q]⟩,
    by norm_num [w6ns2, w6p, w6q],
    by decide, by decide, ?_⟩
  · unfold detect_proto_nucleus
    norm_num +decide [proto_try_sizes, sortDescBy, insertDescBy, sharedProtoRoots,
      anyRelatedPair, w6ns1, w6cr, w6calls1, w6p, w6q, List.range']
  · unfold detect_proto_nucleus
    norm_num +decide [proto_try_sizes, sortDescBy, insertDescBy, sharedProtoRoots,
      anyRelatedPair, w6ns2, w6cr, w6calls2, w6p, w6q, List.range']

/-- C6 (amended): proto-nucleus detection runs only when no member
clears the 0.45 nucleus threshold; its candidates are exactly the
members scoring in `[0.40, 0.55)`; group sizes 2 through 5 are tried on
the highest-scoring candidates and the smallest size is accepted whose
mean score reaches 0.45, whose members share a non-boilerplate context
root, and in which some pair is directly call-connected or shares a
callee; in particular a two-function cluster whose members both score in
`[0.40, 0.55)` with mean at least 0.45, share a non-boilerplate context
root and call each other yields a proto-nucleus of both names. -/
theorem C6_proto_nucleus (cluster : List FName) (ns : FName → ℚ)
    (cr : FName → List String) (bs : FName → ℚ) (calls : FName → List FName) :
    ((select_nucleus cluster ns).1.isSome →
      (analysis_nucleus_proto cluster ns cr bs calls).2.1 = [])
    ∧ (detect_proto_nucleus cluster ns cr bs calls ≠ [] →
      ∃ s, 2 ≤ s ∧ s ≤ 5
        ∧ detect_proto_nucleus cluster ns cr bs calls
            = (sortDescBy ns (cluster.filter
                (fun fn => (0.40 : ℚ) ≤ ns fn ∧ ns fn < 0.55))).take s
        ∧ proto_accept (sortDescBy ns (cluster.filter
            (fun fn => (0.40 : ℚ) ≤ ns fn ∧ ns fn < 0.55))) ns cr bs calls s
        ∧ (∀ s', 2 ≤ s' → s' < s →
            ¬ proto_accept (sortDescBy ns (cluster.filter
              (fun fn => (0.40 : ℚ) ≤ ns fn ∧ ns fn < 0.55))) ns cr bs calls s')
        ∧ ∀ fn ∈ detect_proto_nucleus cluster ns cr bs calls,
            (0.40 : ℚ) ≤ ns fn ∧ ns fn < 0.55)
    ∧ (∀ p q, cluster = [p, q] →
        (0.40 : ℚ) ≤ ns p → ns p < 0.55 → (0.40 : ℚ) ≤ ns q → ns q < 0.55 →
        (0.45 : ℚ) ≤ (ns p + ns q) / 2 →
        bs p < 0.6 → bs q < 0.6 →
        (cr p).inter (cr q) ≠ [] →
        (q ∈ calls p ∨ p ∈ calls q) →
        detect_proto_nucleus cluster ns cr bs calls = [p, q]
          ∨ detect_proto_nucleus cluster ns cr bs calls = [q, p]) := by
  refine ⟨?_, ?_, ?_⟩
  · -- attempted only when no nucleus was selected
    intro h
    unfold analysis_nucleus_proto
    dsimp only
    rcases hsel : (select_nucleus cluster ns).1 with _ | fn
    · rw [hsel] at h
      exact absurd h (by simp)
    · rfl
  · -- structure of a nonempty detection result
    intro hne
    unfold detect_proto_nucleus at hne ⊢
    by_cases hlen : (cluster.filter
        (fun fn => (0.40 : ℚ) ≤ ns fn ∧ ns fn < 0.55)).length < 2
    · rw [if_pos hlen] at hne
      exact absurd rfl hne
    · rw [if_neg hlen] at hne ⊢
      have hsorted : (List.range' 2 (min 6 ((sortDescBy ns (cluster.filter
          (fun fn => (0.40 : ℚ) ≤ ns fn ∧ ns fn < 0.55))).length + 1) - 2)).Sorted (· < ·) := by
        apply List.pairwise_lt_range'
        exact Nat.one_pos
      rcases proto_try_sizes_first
          (sortDescBy ns (cluster.filter (fun fn => (0.40 : ℚ) ≤ ns fn ∧ ns fn < 0.55)))
          ns cr bs calls _ hsorted with ⟨hres, _⟩ | ⟨s, hs, hres, hacc, hmin⟩
      · exact absurd hres hne
      · have hsb := List.mem_range'_1.mp hs
        have hs2 : 2 ≤ s := hsb.1
        have hs5 : s ≤ 5 := by
          have := hsb.2
          omega
        refine ⟨s, hs2, hs5, hres, hacc, ?_, ?_⟩
        · intro u hu2 hus
          apply hmin
          · apply List.mem_range'_1.mpr
            refine ⟨hu2, ?_⟩
            have := hsb.2
            omega
          · exact hus
        · intro fn hfn
          rw [hres] at hfn
          have hfn2 : fn ∈ sortDescBy ns (cluster.filter
              (fun fn => (0.40 : ℚ) ≤ ns fn ∧ ns fn < 0.55)) :=
            List.take_subset s _ hfn
          have hfn3 := (mem_sortDescBy ns fn _).mp hfn2
          have := (List.mem_filter.mp hfn3).2
          exact of_decide_eq_true this
  · -- the corrected two-function scenario
    intro p q hcl hp1 hp2 hq1 hq2 hmean hbsp hbsq hshared hcall
    subst hcl
    unfold detect_proto_nucleus
    have hfilter : ([p, q].filter (fun fn => decide ((0.40 : ℚ) ≤ ns fn ∧ ns fn < 0.55)))
        = [p, q] := by
      apply List.filter_eq_self.mpr
      intro x hx
      rcases List.mem_cons.mp hx with rfl | hx
      · exact decide_eq_true ⟨hp1, hp2⟩
      · rcases List.mem_cons.mp hx with rfl | hx
        · exact decide_eq_true ⟨hq1, hq2⟩
        · cases hx
    rw [hfilter]
    rw [if_neg (by norm_num)]
    have hshared' : (cr q).inter (cr p) ≠ [] := by
      obtain ⟨x, hx⟩ := List.exists_mem_of_ne_nil _ hshared
      have hx' := List.mem_inter_iff.mp hx
      exact List.ne_nil_of_mem (List.mem_inter_iff.mpr ⟨hx'.2, hx'.1⟩)
    have hstep : ∀ u v : FName, sortDescBy ns [p, q] = [u, v] →
        (u = p ∧ v = q ∨ u = q ∧ v = p) →
        proto_try_sizes [u, v] ns cr bs calls (List.range' 2 (min 6 ([u, v].length + 1) - 2))
          = [u, v] := by
      intro u v _ huv
      have hlen2 : ([u, v] : List FName).length = 2 := rfl
      rw [show List.range' 2 (min 6 (([u, v] : List FName).length + 1) - 2) = [2] from rfl]
      unfold proto_try_sizes
      have htake : ([u, v] : List FName).take 2 = [u, v] := rfl
      rw [htake]
      have hsum : (([u, v] : List FName).map ns).sum = ns p + ns q := by
        rcases huv with ⟨rfl, rfl⟩ | ⟨rfl, rfl⟩
        · simp
        · simp [add_comm]
      have hstr : ¬ ((([u, v] : List FName).map ns).sum / (([u, v] : List FName).length : ℚ)
          < 0.45) := by
        rw [hsum, hlen2]
        push_neg
        norm_num
        linarith
      rw [if_neg hstr]
      dsimp only
      have hroots : sharedProtoRoots cr bs [u, v] = some ((cr u).inter (cr v)) := by
        unfold sharedProtoRoots
        rcases huv with ⟨rfl, rfl⟩ | ⟨rfl, rfl⟩ <;>
          simp [List.foldl_cons, List.foldl_nil, hbsp, hbsq]
      have hrootsne : (cr u).inter (cr v) ≠ [] := by
        rcases huv with ⟨rfl, rfl⟩ | ⟨rfl, rfl⟩
        · exact hshared
        · exact hshared'
      have hrel : anyRelatedPair calls [u, v] = true := by
        unfold anyRelatedPair anyRelatedPair
        rcases huv with ⟨rfl, rfl⟩ | ⟨rfl, rfl⟩ <;>
          rcases hcall with hc | hc <;>
          simp [hc]
      rw [if_pos]
      rw [hroots, hrel]
      simp [hrootsne]
    have hsort : sortDescBy ns [p, q] = [p, q] ∨ sortDescBy ns [p, q] = [q, p] := by
      by_cases h : ns p < ns q
      · right
        show insertDescBy ns p (insertDescBy ns q (sortDescBy ns [])) = [q, p]
        rw [show insertDescBy ns q (sortDescBy ns []) = [q] from rfl]
        unfold insertDescBy
        rw [if_pos h]
        rfl
      · left
        show insertDescBy ns p (insertDescBy ns q (sortDescBy ns [])) = [p, q]
        rw [show insertDescBy ns q (sortDescBy ns []) = [q] from rfl]
        unfold insertDescBy
        rw [if_neg h]
    rcases hsort with hs | hs <;> rw [hs]
    · exact Or.inl (hstep p q hs (Or.inl ⟨rfl, rfl⟩))
    · exact Or.inr (hstep q p hs (Or.inr ⟨rfl, rfl⟩))

/-- Witness for C6: on the concrete pair both scoring 0.50 with a shared
context root and mutual calls, the detection returns both names. -/
theorem C6_proto_nucleus_witness :
    detect_proto_nucleus [w6p, w6q] w6ns2 w6cr (fun _ => 0) w6calls1 = [w6p, w6q]
      ∨ detect_proto_nucleus [w6p, w6q] w6ns2 w6cr (fun _ => 0) w6calls1 = [w6q, w6p] := by
  have hp : w6ns2 w6p = 1/2 := by norm_num [w6ns2]
  have hq : w6ns2 w6q = 1/2 := by norm_num [w6ns2]
  refine (C6_proto_nucleus [w6p, w6q] w6ns2 w6cr (fun _ => 0) w6calls1).2.2 w6p w6q rfl
    ?_ ?_ ?_ ?_ ?_ ?_ ?_ ?_ ?_
  · rw [hp]; norm_num
  · rw [hp]; norm_num
  · rw [hq]; norm_num
  · rw [hq]; norm_num
  · rw [hp, hq]; norm_num
  · norm_num
  · norm_num
  · decide
  · left; decide

/-! ## Claim C9 -/

/-- Boilerplate score of the exported witness function: only the
exported-name lifecycle bonus fires, giving 0.15 times 0.2. -/
theorem w9_bsa : gate_boilerplate_scores (fun _ => []) w9cr w9a = 3/100 := by
  unfold gate_boilerplate_scores calculate_boilerplate_score fanout_weight_of
    call_density_of registration_weight_of lifecycle_weight_of
  norm_num +decide [w9a]

/-- Boilerplate score of the method-style witness function: zero. -/
theorem w9_bsb : gate_boilerplate_scores (fun _ => []) w9cr w9b = 0 := by
  unfold gate_boilerplate_scores calculate_boilerplate_score fanout_weight_of
    call_density_of registration_weight_of lifecycle_weight_of
  norm_num +decide [w9b]

/-- Nucleus score of the exported witness function: one of three
table-like roots shared plus module-API centrality, scaled by one minus
its boilerplate, giving about 0.4397 — inside the gap [0.42, 0.45). -/
theorem w9_nsa : gate_nucleus_scores w9cluster (fun _ => []) (fun _ => []) w9cr [] none
    w9scope w9a = 3298/7500 := by
  unfold gate_nucleus_scores calculate_nucleus_score
  rw [show gate_boilerplate_scores (fun _ => []) w9cr w9a = 3/100 from w9_bsa]
  norm_num +decide [w9cluster, w9a, w9b, w9cr, w9scope, tableLike,
    show (["st_x", "st_y", "st_z"].inter (([] : List String).union ["st_x"])).length = 1
      from by decide]

/-- Nucleus score of the method-style witness function: only the full
shared-context weight fires, giving 0.10. -/
theorem w9_nsb : gate_nucleus_scores w9cluster (fun _ => []) (fun _ => []) w9cr [] none
    w9scope w9b = 1/10 := by
  unfold gate_nucleus_scores calculate_nucleus_score
  rw [show gate_boilerplate_scores (fun _ => []) w9cr w9b = 0 from w9_bsb]
  norm_num +decide [w9cluster, w9a, w9b, w9cr, w9scope, tableLike,
    show (["st_x"].inter (([] : List String).union ["st_x", "st_y", "st_z"])).length = 1
      from by decide]

/-- The witness cluster in descending nucleus-score order. -/
theorem w9_sort : sortDescBy (gate_nucleus_scores w9cluster (fun _ => []) (fun _ => [])
    w9cr [] none w9scope) w9cluster = [w9a, w9b] := by
  show insertDescBy _ w9a (insertDescBy _ w9b (sortDescBy _ [])) = [w9a, w9b]
  rw [show insertDescBy (gate_nucleus_scores w9cluster (fun _ => []) (fun _ => [])
    w9cr [] none w9scope) w9b (sortDescBy (gate_nucleus_scores w9cluster (fun _ => [])
    (fun _ => []) w9cr [] none w9scope) []) = [w9b] from rfl]
  unfold insertDescBy
  rw [if_neg]
  rw [w9_nsa, w9_nsb]
  norm_num

/-- The witness nucleus scores with the cluster literal spelled out. -/
theorem w9_nsa2 : gate_nucleus_scores [w9a, w9b] (fun _ => []) (fun _ => []) w9cr [] none
    w9scope w9a = 3298/7500 := w9_nsa

/-- The method-side witness nucleus score with the cluster literal
spelled out. -/
theorem w9_nsb2 : gate_nucleus_scores [w9a, w9b] (fun _ => []) (fun _ => []) w9cr [] none
    w9scope w9b = 1/10 := w9_nsb

/-- The witness cluster passes all three rejection gates: no
boilerplate domination, exactly one member above 0.42, no competitor. -/
theorem w9_accepted : validate_cluster w9cluster (fun _ => []) (fun _ => []) w9cr [] none
    w9scope = GateDecision.accepted := by
  unfold validate_cluster
  dsimp only
  rw [w9_sort]
  norm_num +decide [NUCLEUS_THRESHOLD, w9cluster, w9_nsa, w9_nsb, w9_bsa, w9_bsb,
    w9_nsa2, w9_nsb2, List.filter_cons, List.filter_nil]

/-- Maximum nucleus score of the witness cluster. -/
theorem w9_max : maxQ (w9cluster.map (gate_nucleus_scores w9cluster (fun _ => [])
    (fun _ => []) w9cr [] none w9scope)) = 3298/7500 := by
  have h : w9cluster.map (gate_nucleus_scores w9cluster (fun _ => []) (fun _ => [])
      w9cr [] none w9scope) = [3298/7500, 1/10] := by
    simp only [w9cluster, List.map_cons, List.map_nil, w9_nsa2, w9_nsb2]
  rw [h]
  unfold maxQ
  simp only [List.foldl_cons, List.foldl_nil]
  rw [max_eq_left (by norm_num)]

/-- The scan in `select_nucleus` only records members scoring at least
0.45. -/
theorem select_nucleus_foldl_mem (ns : FName → ℚ) :
    ∀ (l : List FName) (acc : Option FName × ℚ) (g : FName),
      (l.foldl (fun acc fn =>
        if (0.45 : ℚ) ≤ ns fn ∧ acc.2 < ns fn
        then (some fn, ns fn) else acc) acc).1 = some g →
      (g ∈ l ∧ (0.45 : ℚ) ≤ ns g) ∨ acc.1 = some g := by
  intro l
  induction l with
  | nil =>
    intro acc g h
    exact Or.inr h
  | cons a as ih =>
    intro acc g h
    rw [List.foldl_cons] at h
    rcases ih _ g h with ⟨hmem, hge⟩ | hacc
    · exact Or.inl ⟨List.mem_cons_of_mem _ hmem, hge⟩
    · by_cases hc : (0.45 : ℚ) ≤ ns a ∧ acc.2 < ns a
      · rw [if_pos hc] at hacc
        simp only [Option.some.injEq] at hacc
        subst hacc
        exact Or.inl ⟨List.mem_cons_self _ _, hc.1⟩
      · rw [if_neg hc] at hacc
        exact Or.inr hacc

/-- A selected nucleus is a cluster member scoring at least 0.45. -/
theorem select_nucleus_some {cluster : List FName} {ns : FName → ℚ} {g : FName}
    (h : (select_nucleus cluster ns).1 = some g) :
    g ∈ cluster ∧ (0.45 : ℚ) ≤ ns g := by
  unfold select_nucleus at h
  rcases select_nucleus_foldl_mem ns cluster (none, 0) g h with hh | hh
  · exact hh
  · exact absurd hh (by simp)

/-- C9: a cluster reported in state "nucleus" has a nucleus member whose
score reaches 0.45, strictly above the 0.42 gate threshold; and an
accepted cluster whose maximum nucleus score lies in [0.42, 0.45) is
reported with no nucleus, in state "proto_nucleus" or "diffuse". -/
theorem C9_nucleus_threshold_gap (cluster : List FName)
    (calls callers : FName → List FName) (context_roots : FName → List String)
    (veneers : List FName) (call_graph : CallGraph)
    (func_scope : Option (FName → Option String)) (bs ns : FName → ℚ)
    (hns : ns = gate_nucleus_scores cluster calls callers context_roots veneers
      call_graph func_scope) :
    (∀ fn, (analysis_nucleus_proto cluster ns context_roots bs calls).1 = some fn →
      fn ∈ cluster ∧ (0.45 : ℚ) ≤ ns fn ∧ NUCLEUS_THRESHOLD < ns fn
        ∧ (analysis_nucleus_proto cluster ns context_roots bs calls).2.2 = "nucleus")
    ∧ (validate_cluster cluster calls callers context_roots veneers call_graph func_scope
          = GateDecision.accepted →
        NUCLEUS_THRESHOLD ≤ maxQ (cluster.map ns) →
        maxQ (cluster.map ns) < 0.45 →
        (analysis_nucleus_proto cluster ns context_roots bs calls).1 = none
          ∧ ((analysis_nucleus_proto cluster ns context_roots bs calls).2.2 = "proto_nucleus"
            ∨ (analysis_nucleus_proto cluster ns context_roots bs calls).2.2 = "diffuse")) := by
  clear hns
  have hfst : (analysis_nucleus_proto cluster ns context_roots bs calls).1
      = (select_nucleus cluster ns).1 := rfl
  constructor
  · intro fn h
    rw [hfst] at h
    obtain ⟨hmem, hge⟩ := select_nucleus_some h
    refine ⟨hmem, hge, ?_, ?_⟩
    · unfold NUCLEUS_THRESHOLD
      linarith
    · unfold analysis_nucleus_proto
      dsimp only
      rw [h]
      rfl
  · intro _ _ hmax
    have hnone : (select_nucleus cluster ns).1 = none := by
      rcases hsel : (select_nucleus cluster ns).1 with _ | fn
      · rfl
      · obtain ⟨hmem, hge⟩ := select_nucleus_some hsel
        have hle : ns fn ≤ maxQ (cluster.map ns) :=
          le_maxQ (List.mem_map_of_mem ns hmem)
        linarith
    refine ⟨hfst.trans hnone, ?_⟩
    have h22 : (analysis_nucleus_proto cluster ns context_roots bs calls).2.2
        = cluster_state (select_nucleus cluster ns).1
          (analysis_nucleus_proto cluster ns context_roots bs calls).2.1 := rfl
    rw [h22, hnone]
    unfold cluster_state
    by_cases hd : (analysis_nucleus_proto cluster ns context_roots bs calls).2.1 ≠ []
    · left
      rw [if_pos hd]
    · right
      rw [if_neg hd]

/-- Witness for C9: a concrete accepted two-function cluster whose best
nucleus score is 3298/7500, inside [0.42, 0.45): it is reported with no
nucleus. -/
theorem C9_nucleus_threshold_gap_witness :
    validate_cluster w9cluster (fun _ => []) (fun _ => []) w9cr [] none w9scope
        = GateDecision.accepted
      ∧ NUCLEUS_THRESHOLD ≤ maxQ (w9cluster.map (gate_nucleus_scores w9cluster
          (fun _ => []) (fun _ => []) w9cr [] none w9scope))
      ∧ maxQ (w9cluster.map (gate_nucleus_scores w9cluster
          (fun _ => []) (fun _ => []) w9cr [] none w9scope)) < 0.45
      ∧ (analysis_nucleus_proto w9cluster (gate_nucleus_scores w9cluster
          (fun _ => []) (fun _ => []) w9cr [] none w9scope) w9cr
          (gate_boilerplate_scores (fun _ => []) w9cr) (fun _ => [])).1 = none := by
  have h42 : NUCLEUS_THRESHOLD ≤ maxQ (w9cluster.map (gate_nucleus_scores w9cluster
      (fun _ => []) (fun _ => []) w9cr [] none w9scope)) := by
    rw [w9_max]
    unfold NUCLEUS_THRESHOLD
    norm_num
  have h45 : maxQ (w9cluster.map (gate_nucleus_scores w9cluster
      (fun _ => []) (fun _ => []) w9cr [] none w9scope)) < 0.45 := by
    rw [w9_max]
    norm_num
  refine ⟨w9_accepted, h42, h45, ?_⟩
  exact ((C9_nucleus_threshold_gap w9cluster (fun _ => []) (fun _ => []) w9cr [] none
    w9scope (gate_boilerplate_scores (fun _ => []) w9cr)
    (gate_nucleus_scores w9cluster (fun _ => []) (fun _ => []) w9cr [] none w9scope)
    rfl).2 w9_accepted h42 h45).1

/-! ## Claim C4 -/

/-- `tuple(sorted((a, b)))` determines the pair up to order. -/
theorem sortedPair_eq {x y a b : FName} (h : sortedPair x y = sortedPair a b) :
    (x = a ∧ y = b) ∨ (x = b ∧ y = a) := by
  unfold sortedPair at h
  split_ifs at h
  all_goals
    rw [Prod.mk.injEq] at h
    tauto

/-- The Phase A loop step never removes a pair from the seen set. -/
theorem edgeStep_seen_mono (structural : List FName) (calls : FName → List FName)
    (cr ids : FName → List String) (st : PhaseAState) (a b : FName) {p : FName × FName}
    (hp : p ∈ st.seen) : p ∈ (edgeStep structural calls cr ids st a b).seen := by
  unfold edgeStep
  by_cases h1 : b ∉ structural ∨ a = b
  · rw [if_pos h1]
    exact hp
  · rw [if_neg h1]
    dsimp only
    by_cases h2 : sortedPair a b ∈ st.seen
    · rw [if_pos h2]
      exact hp
    · rw [if_neg h2]
      exact List.mem_cons_of_mem _ hp

/-- The Phase A loop step never removes an adjacency edge. -/
theorem edgeStep_adj_mono (structural : List FName) (calls : FName → List FName)
    (cr ids : FName → List String) (st : PhaseAState) (a b : FName) {x y : FName}
    (hxy : y ∈ st.adj x) : y ∈ (edgeStep structural calls cr ids st a b).adj x := by
  unfold edgeStep
  by_cases h1 : b ∉ structural ∨ a = b
  · rw [if_pos h1]
    exact hxy
  · rw [if_neg h1]
    dsimp only
    by_cases h2 : sortedPair a b ∈ st.seen
    · rw [if_pos h2]
      exact hxy
    · rw [if_neg h2]
      dsimp only
      push_neg at h1
      by_cases h3 : CLUSTER_THRESHOLD ≤ coupling cr ids calls a b
      · rw [if_pos h3, mem_updAdj st.adj a b y x h1.2]
        exact Or.inl hxy
      · rw [if_neg h3]
        exact hxy

/-- Fold invariance when the step property may use membership of the
iterated element in the list. -/
theorem foldl_inv_mem {α β : Type*} (P : β → Prop) (f : β → α → β) :
    ∀ (l : List α), (∀ st a, a ∈ l → P st → P (f st a)) →
      ∀ st, P st → P (l.foldl f st)
  | [], _, _, hst => hst
  | a :: l, hf, st, hst =>
    foldl_inv_mem P f l (fun st' a' ha' => hf st' a' (List.mem_cons_of_mem _ ha'))
      (f st a) (hf st a (List.mem_cons_self _ _) hst)

/-- The start of an avoiding path lies outside the avoided set. -/
theorem avoidReach_start {adjacency : FName → List FName} {avoid : List FName}
    {x y : FName} (h : AvoidReach adjacency avoid x y) : x ∉ avoid := by
  induction h with
  | refl hx => exact hx
  | step _ _ _ ih => exact ih

/-- The end of an avoiding path lies outside the avoided set. -/
theorem avoidReach_end {adjacency : FName → List FName} {avoid : List FName}
    {x y : FName} (h : AvoidReach adjacency avoid x y) : y ∉ avoid := by
  induction h with
  | refl hx => exact hx
  | step _ _ hz _ => exact hz

/-- Shrinking the avoided set preserves avoiding reachability. -/
theorem avoidReach_mono {adjacency : FName → List FName} {avoid avoid' : List FName}
    (hsub : ∀ m, m ∈ avoid' → m ∈ avoid) {x y : FName}
    (h : AvoidReach adjacency avoid x y) : AvoidReach adjacency avoid' x y := by
  induction h with
  | refl hx => exact .refl (fun hm => hx (hsub _ hm))
  | step _ hz hnz ih => exact .step ih hz (fun hm => hnz (hsub _ hm))

/-- Avoiding paths compose. -/
theorem avoidReach_trans {adjacency : FName → List FName} {avoid : List FName}
    {x y z : FName} (h1 : AvoidReach adjacency avoid x y)
    (h2 : AvoidReach adjacency avoid y z) : AvoidReach adjacency avoid x z := by
  induction h2 with
  | refl _ => exact h1
  | step _ hz hnz ih => exact .step ih hz hnz

/-- An avoiding path is in particular a path. -/
theorem avoidReach_toReach {adjacency : FName → List FName} {avoid : List FName}
    {x y : FName} (h : AvoidReach adjacency avoid x y) : ReachAdj adjacency x y := by
  induction h with
  | refl _ => exact .refl _
  | step _ hz _ ih => exact .step ih hz

/-- When the avoided set is closed under the symmetric adjacency and the
start lies outside it, every path from the start avoids it. -/
theorem reach_toAvoid {adjacency : FName → List FName} {visited : List FName}
    (hcl : ∀ m, m ∈ visited → ∀ z, z ∈ adjacency m → z ∈ visited)
    (hsym : ∀ p q, p ∈ adjacency q ↔ q ∈ adjacency p)
    {x y : FName} (hx : x ∉ visited) (h : ReachAdj adjacency x y) :
    AvoidReach adjacency visited x y := by
  induction h with
  | refl => exact .refl hx
  | step _ hz ih =>
    refine .step ih hz (fun hzv => ?_)
    exact avoidReach_end ih (hcl _ hzv _ ((hsym _ _).mpr hz))

/-- Peeling the first visit of `n` off an avoiding path: either the path
ends at `n`, or it can restart from its own start or from an unvisited
neighbour of `n`, now avoiding `n` as well. -/
theorem avoidReach_peel {adjacency : FName → List FName} {visited : List FName}
    (n : FName) {s y : FName} (h : AvoidReach adjacency visited s y) :
    y = n ∨ ∃ w, (w = s ∨ (w ∈ adjacency n ∧ w ∉ n :: visited))
      ∧ AvoidReach adjacency (n :: visited) w y := by
  induction h with
  | refl hx =>
    by_cases hxn : s = n
    · exact Or.inl hxn
    · refine Or.inr ⟨s, Or.inl rfl, .refl (fun hc => ?_)⟩
      rcases List.mem_cons.mp hc with hc | hc
      · exact hxn hc
      · exact hx hc
  | step h1 hz hnz ih =>
    rename_i y' z
    by_cases hzn : z = n
    · exact Or.inl hzn
    · have hz' : z ∉ n :: visited := by
        intro hc
        rcases List.mem_cons.mp hc with hc | hc
        · exact hzn hc
        · exact hnz hc
      rcases ih with hyn | ⟨w, hw, hwr⟩
      · subst hyn
        exact Or.inr ⟨z, Or.inr ⟨hz, hz'⟩, .refl hz'⟩
      · exact Or.inr ⟨w, hw, .step hwr hz hz'⟩

/-- Sums of mapped values only shrink under filtering. -/
theorem sum_filter_imp (f : FName → ℕ) (p q : FName → Bool)
    (hpq : ∀ m, p m = true → q m = true) :
    ∀ l : List FName, ((l.filter p).map f).sum ≤ ((l.filter q).map f).sum := by
  intro l
  induction l with
  | nil => simp
  | cons a l ih =>
    rw [List.filter_cons, List.filter_cons]
    by_cases hp : p a = true
    · rw [if_pos hp, if_pos (hpq a hp)]
      simp only [List.map_cons, List.sum_cons]
      omega
    · rw [if_neg hp]
      by_cases hq : q a = true
      · rw [if_pos hq]
        simp only [List.map_cons, List.sum_cons]
        omega
      · rw [if_neg hq]
        exact ih

/-- Filtering is below the unfiltered sum. -/
theorem sum_filter_le (f : FName → ℕ) (p : FName → Bool) (l : List FName) :
    ((l.filter p).map f).sum ≤ (l.map f).sum := by
  induction l with
  | nil => simp
  | cons a l ih =>
    rw [List.filter_cons]
    by_cases hp : p a = true
    · rw [if_pos hp]
      simp only [List.map_cons, List.sum_cons]
      omega
    · rw [if_neg hp]
      simp only [List.map_cons, List.sum_cons]
      omega

/-- Marking an unvisited listed node as visited frees at least its own
contribution from the potential sum. -/
theorem sum_filter_extract (f : FName → ℕ) (visited : List FName) (n : FName)
    (hn : n ∉ visited) :
    ∀ l : List FName, n ∈ l →
      f n + ((l.filter (fun m => m ∉ n :: visited)).map f).sum
        ≤ ((l.filter (fun m => m ∉ visited)).map f).sum := by
  intro l
  induction l with
  | nil =>
    intro h
    cases h
  | cons a l ih =>
    intro hmem
    rw [List.filter_cons, List.filter_cons]
    by_cases han : a = n
    · subst han
      rw [if_neg (by simp), if_pos (by simpa using hn)]
      simp only [List.map_cons, List.sum_cons]
      have hmono := sum_filter_imp f (fun m => m ∉ a :: visited) (fun m => m ∉ visited)
        (fun m hm => by
          simp only [decide_eq_true_eq] at hm ⊢
          intro hc
          exact hm (List.mem_cons_of_mem _ hc)) l
      omega
    · have hmem' : n ∈ l := by
        rcases List.mem_cons.mp hmem with hc | hc
        · exact absurd hc.symm han
        · exact hc
      by_cases hav : a ∈ visited
      · rw [if_neg (by simp [hav]), if_neg (by simp [hav])]
        exact ih hmem'
      · rw [if_pos, if_pos]
        · simp only [List.map_cons, List.sum_cons]
          have := ih hmem'
          omega
        · simpa using hav
        · simp only [decide_eq_true_eq]
          intro hc
          rcases List.mem_cons.mp hc with hc | hc
          · exact han hc
          · exact hav hc


/-- One DFS pass visits exactly the nodes avoid-reachable from its
stack, appending them to both the visited set and the component. -/
theorem dfs_collect_spec (adjacency : FName → List FName) (nodes : List FName)
    (hclosed : ∀ x y, y ∈ adjacency x → y ∈ nodes) :
    ∀ (fuel : ℕ) (stack visited component : List FName),
      (∀ s, s ∈ stack → s ∈ nodes) →
      stack.length + ((nodes.filter (fun m => m ∉ visited)).map
        (fun m => 1 + (adjacency m).length)).sum ≤ fuel →
      ∃ L, (dfs_collect adjacency fuel stack visited component).1 = L ++ visited
        ∧ (dfs_collect adjacency fuel stack visited component).2 = L ++ component
        ∧ ∀ y, (y ∈ L ↔ ∃ s, s ∈ stack ∧ AvoidReach adjacency visited s y) := by
  intro fuel
  induction fuel with
  | zero =>
    intro stack visited component hstack hfuel
    cases stack with
    | nil =>
      refine ⟨[], rfl, rfl, ?_⟩
      simp
    | cons n tl =>
      exfalso
      simp only [List.length_cons] at hfuel
      omega
  | succ fuel ih =>
    intro stack visited component hstack hfuel
    cases stack with
    | nil =>
      refine ⟨[], rfl, rfl, ?_⟩
      simp
    | cons n tl =>
      by_cases hv : n ∈ visited
      · rw [show dfs_collect adjacency (fuel + 1) (n :: tl) visited component
            = dfs_collect adjacency fuel tl visited component from by
          simp only [dfs_collect]
          rw [if_pos hv]]
        obtain ⟨L, h1, h2, h3⟩ := ih tl visited component
          (fun s hs => hstack s (List.mem_cons_of_mem _ hs))
          (by simp only [List.length_cons] at hfuel; omega)
        refine ⟨L, h1, h2, fun y => ?_⟩
        rw [h3 y]
        constructor
        · rintro ⟨s, hs, hr⟩
          exact ⟨s, List.mem_cons_of_mem _ hs, hr⟩
        · rintro ⟨s, hs, hr⟩
          rcases List.mem_cons.mp hs with rfl | hs
          · exact absurd hv (avoidReach_start hr)
          · exact ⟨s, hs, hr⟩
      · rw [show dfs_collect adjacency (fuel + 1) (n :: tl) visited component
            = dfs_collect adjacency fuel
              (((adjacency n).filter (fun x => x ∉ n :: visited)) ++ tl)
              (n :: visited) (n :: component) from by
          simp only [dfs_collect]
          rw [if_neg hv]]
        have hn_nodes : n ∈ nodes := hstack n (List.mem_cons_self _ _)
        have hstack' : ∀ s, s ∈ ((adjacency n).filter (fun x => x ∉ n :: visited)) ++ tl →
            s ∈ nodes := by
          intro s hs
          rcases List.mem_append.mp hs with hs | hs
          · exact hclosed n s (List.mem_of_mem_filter hs)
          · exact hstack s (List.mem_cons_of_mem _ hs)
        have hfuel' : (((adjacency n).filter (fun x => x ∉ n :: visited)) ++ tl).length
            + ((nodes.filter (fun m => m ∉ n :: visited)).map
              (fun m => 1 + (adjacency m).length)).sum ≤ fuel := by
          have hext := sum_filter_extract (fun m => 1 + (adjacency m).length) visited n hv
            nodes hn_nodes
          dsimp only at hext
          have hflt : ((adjacency n).filter (fun x => x ∉ n :: visited)).length
              ≤ (adjacency n).length := List.length_filter_le _ _
          simp only [List.length_append, List.length_cons] at hfuel ⊢
          omega
        obtain ⟨L', h1, h2, h3⟩ := ih _ (n :: visited) (n :: component) hstack' hfuel'
        refine ⟨L' ++ [n], by rw [h1, List.append_assoc]; rfl,
          by rw [h2, List.append_assoc]; rfl, fun y => ?_⟩
        rw [List.mem_append, h3 y]
        constructor
        · rintro (⟨s, hs, hr⟩ | hyn)
          · rcases List.mem_append.mp hs with hsf | hst
            · have hs_adj : s ∈ adjacency n := List.mem_of_mem_filter hsf
              have hs_nv : s ∉ n :: visited := by
                have := List.of_mem_filter hsf
                simpa using this
              have hstep : AvoidReach adjacency visited n s :=
                .step (.refl hv) hs_adj (fun hc => hs_nv (List.mem_cons_of_mem _ hc))
              exact ⟨n, List.mem_cons_self _ _, avoidReach_trans hstep
                (avoidReach_mono (fun m hm => List.mem_cons_of_mem _ hm) hr)⟩
            · exact ⟨s, List.mem_cons_of_mem _ hst,
                avoidReach_mono (fun m hm => List.mem_cons_of_mem _ hm) hr⟩
          · have hy : y = n := by simpa using hyn
            subst hy
            exact ⟨y, List.mem_cons_self _ _, .refl hv⟩
        · rintro ⟨s, hs, hr⟩
          rcases avoidReach_peel n hr with hyn | ⟨w, hw, hwr⟩
          · right
            simp [hyn]
          · left
            rcases hw with heq | ⟨hw_adj, hw_nv⟩
            · rw [heq] at hwr
              have hs_nv : s ∉ n :: visited := avoidReach_start hwr
              have hs_ne : s ≠ n := fun hc => hs_nv (hc ▸ List.mem_cons_self _ _)
              have hs_tl : s ∈ tl := by
                rcases List.mem_cons.mp hs with hc | hc
                · exact absurd hc hs_ne
                · exact hc
              exact ⟨s, List.mem_append.mpr (Or.inr hs_tl), hwr⟩
            · refine ⟨w, List.mem_append.mpr (Or.inl (List.mem_filter.mpr
                ⟨hw_adj, ?_⟩)), hwr⟩
              simpa using hw_nv


/-- `find_connected_components` is the fold of its step function. -/
theorem fcc_eq_foldl (nodes : List FName) (adjacency : FName → List FName) :
    find_connected_components nodes adjacency
      = (nodes.foldl (fccStep adjacency nodes) ([], [])).2 := rfl

/-- Two distinct members force length at least two. -/
theorem two_mem_length {x y : FName} {l : List FName} (hx : x ∈ l) (hy : y ∈ l)
    (hxy : x ≠ y) : 2 ≤ l.length := by
  cases l with
  | nil => cases hx
  | cons a tl =>
    cases tl with
    | nil =>
      have hx' := List.mem_singleton.mp hx
      have hy' := List.mem_singleton.mp hy
      exact absurd (hx'.trans hy'.symm) hxy
    | cons b tl2 =>
      simp only [List.length_cons]
      omega

/-- One outer-scan step preserves the invariant, marks the scanned node
visited, and never removes visited nodes or emitted components. -/
theorem fccStep_spec (adjacency : FName → List FName) (nodes : List FName)
    (hclosed : ∀ x y, y ∈ adjacency x → y ∈ nodes)
    (hsym : ∀ p q, p ∈ adjacency q ↔ q ∈ adjacency p)
    (hirr : ∀ x, x ∉ adjacency x)
    (acc : List FName × List (List FName)) (node : FName) (hnode : node ∈ nodes)
    (hinv : fccInvariant adjacency acc) :
    fccInvariant adjacency (fccStep adjacency nodes acc node)
      ∧ node ∈ (fccStep adjacency nodes acc node).1
      ∧ (∀ v, v ∈ acc.1 → v ∈ (fccStep adjacency nodes acc node).1)
      ∧ (∀ C, C ∈ acc.2 → C ∈ (fccStep adjacency nodes acc node).2) := by
  obtain ⟨hcl, hcov, hcomp⟩ := hinv
  unfold fccStep
  by_cases hvis : node ∈ acc.1
  · rw [if_pos hvis]
    exact ⟨⟨hcl, hcov, hcomp⟩, hvis, fun v hv => hv, fun C hC => hC⟩
  · rw [if_neg hvis]
    dsimp only
    obtain ⟨L, h1, h2, h3⟩ := dfs_collect_spec adjacency nodes hclosed
      (dfsFuel nodes adjacency) [node] acc.1 []
      (by
        intro s hs
        have := List.mem_singleton.mp hs
        subst this
        exact hnode)
      (by
        unfold dfsFuel
        have := sum_filter_le (fun m => 1 + (adjacency m).length)
          (fun m => m ∉ acc.1) nodes
        simp only [List.length_singleton]
        omega)
    rw [List.append_nil] at h2
    rw [h1, h2]
    have hchar : ∀ y, y ∈ L ↔ ReachAdj adjacency node y := by
      intro y
      rw [h3 y]
      constructor
      · rintro ⟨s, hs, hr⟩
        have := List.mem_singleton.mp hs
        subst this
        exact avoidReach_toReach hr
      · intro hr
        exact ⟨node, List.mem_singleton.mpr rfl,
          reach_toAvoid (fun m hm z hz => hcl m hm z hz) hsym hvis hr⟩
    have hnodeL : node ∈ L := (hchar node).mpr (.refl _)
    have hcl' : ∀ x, x ∈ L ++ acc.1 → ∀ y, y ∈ adjacency x → y ∈ L ++ acc.1 := by
      intro x hx y hy
      rcases List.mem_append.mp hx with hx | hx
      · exact List.mem_append.mpr (Or.inl ((hchar y).mpr (.step ((hchar x).mp hx) hy)))
      · exact List.mem_append.mpr (Or.inr (hcl x hx y hy))
    by_cases hlen : 2 ≤ L.length
    · rw [if_pos hlen]
      refine ⟨⟨hcl', ?_, ?_⟩, List.mem_append.mpr (Or.inl hnodeL),
        fun v hv => List.mem_append.mpr (Or.inr hv),
        fun C hC => List.mem_append.mpr (Or.inl hC)⟩
      · intro n' hn' hm
        rcases List.mem_append.mp hn' with hL | hacc
        · exact ⟨L, List.mem_append.mpr (Or.inr (List.mem_singleton.mpr rfl)), hL⟩
        · obtain ⟨C, hC, hnC⟩ := hcov n' hacc hm
          exact ⟨C, List.mem_append.mpr (Or.inl hC), hnC⟩
      · intro C hC
        rcases List.mem_append.mp hC with hC | hC
        · exact hcomp C hC
        · have := List.mem_singleton.mp hC
          subst this
          exact ⟨hlen, node, hnodeL, hchar⟩
    · rw [if_neg hlen]
      refine ⟨⟨hcl', ?_, hcomp⟩, List.mem_append.mpr (Or.inl hnodeL),
        fun v hv => List.mem_append.mpr (Or.inr hv), fun C hC => hC⟩
      rintro n' hn' ⟨m, hm⟩
      rcases List.mem_append.mp hn' with hL | hacc
      · exfalso
        have hmL : m ∈ L := (hchar m).mpr (.step ((hchar n').mp hL) hm)
        exact hlen (two_mem_length hL hmL (fun hc => hirr m (hc ▸ hm)))
      · exact hcov n' hacc ⟨m, hm⟩

/-- Folding the outer scan over any node list preserves the invariant
and visits every scanned node. -/
theorem fcc_fold_spec (adjacency : FName → List FName) (nodes : List FName)
    (hclosed : ∀ x y, y ∈ adjacency x → y ∈ nodes)
    (hsym : ∀ p q, p ∈ adjacency q ↔ q ∈ adjacency p)
    (hirr : ∀ x, x ∉ adjacency x) :
    ∀ (l : List FName), (∀ s, s ∈ l → s ∈ nodes) →
      ∀ acc, fccInvariant adjacency acc →
      fccInvariant adjacency (l.foldl (fccStep adjacency nodes) acc)
      ∧ (∀ n, n ∈ l → n ∈ (l.foldl (fccStep adjacency nodes) acc).1)
      ∧ (∀ v, v ∈ acc.1 → v ∈ (l.foldl (fccStep adjacency nodes) acc).1)
      ∧ (∀ C, C ∈ acc.2 → C ∈ (l.foldl (fccStep adjacency nodes) acc).2) := by
  intro l
  induction l with
  | nil =>
    intro _ acc hinv
    exact ⟨hinv, fun n hn => absurd hn (List.not_mem_nil n),
      fun v hv => hv, fun C hC => hC⟩
  | cons a l ih =>
    intro hl acc hinv
    obtain ⟨hinv', ha, hvm, hcm⟩ := fccStep_spec adjacency nodes hclosed hsym hirr acc a
      (hl a (List.mem_cons_self _ _)) hinv
    obtain ⟨hinv'', hl'', hvm'', hcm''⟩ := ih (fun s hs => hl s (List.mem_cons_of_mem _ hs))
      (fccStep adjacency nodes acc a) hinv'
    rw [List.foldl_cons]
    refine ⟨hinv'', ?_, ?_, ?_⟩
    · intro n hn
      rcases List.mem_cons.mp hn with rfl | hn
      · exact hvm'' n ha
      · exact hl'' n hn
    · exact fun v hv => hvm'' v (hvm v hv)
    · exact fun C hC => hcm'' C (hcm C hC)

/-- Correctness of the component scan over a symmetric, closed,
irreflexive adjacency: every emitted cluster is a full connected
component with at least two members, and every node with a neighbour is
in an emitted cluster. -/
theorem fcc_spec (adjacency : FName → List FName) (nodes : List FName)
    (hclosed : ∀ x y, y ∈ adjacency x → y ∈ nodes)
    (hsym : ∀ p q, p ∈ adjacency q ↔ q ∈ adjacency p)
    (hirr : ∀ x, x ∉ adjacency x) :
    (∀ C, C ∈ find_connected_components nodes adjacency →
      2 ≤ C.length ∧ ∃ x, x ∈ C ∧ ∀ y, (y ∈ C ↔ ReachAdj adjacency x y))
    ∧ (∀ n, n ∈ nodes → (∃ m, m ∈ adjacency n) →
        ∃ C, C ∈ find_connected_components nodes adjacency ∧ n ∈ C) := by
  have hbase : fccInvariant adjacency ([], []) := by
    refine ⟨?_, ?_, ?_⟩
    · intro x hx
      cases hx
    · intro n hn
      cases hn
    · intro C hC
      cases hC
  obtain ⟨hinv, hall, _, _⟩ := fcc_fold_spec adjacency nodes hclosed hsym hirr nodes
    (fun s hs => hs) ([], []) hbase
  rw [fcc_eq_foldl]
  obtain ⟨hcl, hcov, hcomp⟩ := hinv
  exact ⟨hcomp, fun n hn hm => hcov n (hall n hn) hm⟩


/-- One Phase A step preserves soundness of the recorded edges. -/
theorem edgeStep_sound (order structural : List FName) (calls : FName → List FName)
    (cr ids : FName → List String) (st : PhaseAState) (a b : FName)
    (ha : a ∈ order) (hb : b ∈ calls a)
    (hadj : ∀ x y, y ∈ st.adj x → ∃ a b, (x = a ∧ y = b ∨ x = b ∧ y = a) ∧ a ∈ order
      ∧ b ∈ calls a ∧ b ∈ structural ∧ a ≠ b
      ∧ CLUSTER_THRESHOLD ≤ coupling cr ids calls a b)
    (hedges : ∀ e, e ∈ st.all_edges → e.1 ∈ order ∧ e.2.1 ∈ calls e.1
      ∧ e.2.1 ∈ structural ∧ e.1 ≠ e.2.1 ∧ e.2.2 = coupling cr ids calls e.1 e.2.1
      ∧ MIN_EDGE ≤ e.2.2) :
    (∀ x y, y ∈ (edgeStep structural calls cr ids st a b).adj x →
      ∃ a b, (x = a ∧ y = b ∨ x = b ∧ y = a) ∧ a ∈ order ∧ b ∈ calls a ∧ b ∈ structural
        ∧ a ≠ b ∧ CLUSTER_THRESHOLD ≤ coupling cr ids calls a b)
    ∧ (∀ e, e ∈ (edgeStep structural calls cr ids st a b).all_edges →
      e.1 ∈ order ∧ e.2.1 ∈ calls e.1 ∧ e.2.1 ∈ structural ∧ e.1 ≠ e.2.1
        ∧ e.2.2 = coupling cr ids calls e.1 e.2.1 ∧ MIN_EDGE ≤ e.2.2) := by
  unfold edgeStep
  by_cases h1 : b ∉ structural ∨ a = b
  · rw [if_pos h1]
    exact ⟨hadj, hedges⟩
  · rw [if_neg h1]
    push_neg at h1
    dsimp only
    by_cases h2 : sortedPair a b ∈ st.seen
    · rw [if_pos h2]
      exact ⟨hadj, hedges⟩
    · rw [if_neg h2]
      constructor
      · intro x y hy
        dsimp only at hy
        by_cases h3 : CLUSTER_THRESHOLD ≤ coupling cr ids calls a b
        · rw [if_pos h3, mem_updAdj st.adj a b y x h1.2] at hy
          rcases hy with hy | ⟨rfl, rfl⟩ | ⟨rfl, rfl⟩
          · exact hadj x y hy
          · exact ⟨x, y, Or.inl ⟨rfl, rfl⟩, ha, hb, h1.1, h1.2, h3⟩
          · exact ⟨y, x, Or.inr ⟨rfl, rfl⟩, ha, hb, h1.1, h1.2, h3⟩
        · rw [if_neg h3] at hy
          exact hadj x y hy
      · intro e he
        dsimp only at he
        by_cases h4 : MIN_EDGE ≤ coupling cr ids calls a b
        · rw [if_pos h4, List.mem_append] at he
          rcases he with he | he
          · exact hedges e he
          · have := List.mem_singleton.mp he
            subst this
            exact ⟨ha, hb, h1.1, h1.2, rfl, h4⟩
        · rw [if_neg h4] at he
          exact hedges e he

/-- Soundness of Phase A: every recorded adjacency edge and weighted
edge comes from an enumerated call-connected pair of structural
functions that passed the corresponding threshold. -/
theorem build_sound (order structural : List FName) (calls : FName → List FName)
    (cr ids : FName → List String) :
    (∀ x y, y ∈ (build_structure_edges order structural calls cr ids).adj x →
      ∃ a b, (x = a ∧ y = b ∨ x = b ∧ y = a) ∧ a ∈ order ∧ b ∈ calls a ∧ b ∈ structural
        ∧ a ≠ b ∧ CLUSTER_THRESHOLD ≤ coupling cr ids calls a b)
    ∧ (∀ e, e ∈ (build_structure_edges order structural calls cr ids).all_edges →
      e.1 ∈ order ∧ e.2.1 ∈ calls e.1 ∧ e.2.1 ∈ structural ∧ e.1 ≠ e.2.1
        ∧ e.2.2 = coupling cr ids calls e.1 e.2.1 ∧ MIN_EDGE ≤ e.2.2) := by
  unfold build_structure_edges
  refine foldl_inv_mem (fun st : PhaseAState =>
      (∀ x y, y ∈ st.adj x → ∃ a b, (x = a ∧ y = b ∨ x = b ∧ y = a) ∧ a ∈ order
        ∧ b ∈ calls a ∧ b ∈ structural ∧ a ≠ b
        ∧ CLUSTER_THRESHOLD ≤ coupling cr ids calls a b)
      ∧ (∀ e, e ∈ st.all_edges → e.1 ∈ order ∧ e.2.1 ∈ calls e.1 ∧ e.2.1 ∈ structural
        ∧ e.1 ≠ e.2.1 ∧ e.2.2 = coupling cr ids calls e.1 e.2.1 ∧ MIN_EDGE ≤ e.2.2))
    (fun st a => (calls a).foldl (fun st b => edgeStep structural calls cr ids st a b) st)
    order ?_ ⟨[], [], fun _ => []⟩ ⟨?_, ?_⟩
  · intro st a ha hst
    refine foldl_inv_mem (fun st : PhaseAState =>
        (∀ x y, y ∈ st.adj x → ∃ a b, (x = a ∧ y = b ∨ x = b ∧ y = a) ∧ a ∈ order
          ∧ b ∈ calls a ∧ b ∈ structural ∧ a ≠ b
          ∧ CLUSTER_THRESHOLD ≤ coupling cr ids calls a b)
        ∧ (∀ e, e ∈ st.all_edges → e.1 ∈ order ∧ e.2.1 ∈ calls e.1 ∧ e.2.1 ∈ structural
          ∧ e.1 ≠ e.2.1 ∧ e.2.2 = coupling cr ids calls e.1 e.2.1 ∧ MIN_EDGE ≤ e.2.2))
      (fun st b => edgeStep structural calls cr ids st a b)
      (calls a) ?_ st hst
    intro st' b hb hst'
    exact edgeStep_sound order structural calls cr ids st' a b ha hb hst'.1 hst'.2
  · intro x y hy
    simp at hy
  · intro e he
    simp at he

/-- Symmetry of the built adjacency map. -/
theorem build_adj_symm (order structural : List FName) (calls : FName → List FName)
    (cr ids : FName → List String) (x y : FName) :
    x ∈ (build_structure_edges order structural calls cr ids).adj y
      ↔ y ∈ (build_structure_edges order structural calls cr ids).adj x := by
  unfold build_structure_edges
  refine foldl_inv (fun st : PhaseAState => ∀ x y, x ∈ st.adj y ↔ y ∈ st.adj x)
    _ ?_ order _ (by simp) x y
  intro st a hst
  exact foldl_inv (fun st : PhaseAState => ∀ x y, x ∈ st.adj y ↔ y ∈ st.adj x)
    _ (fun st' b hst' => edgeStep_symm structural calls cr ids st' a b hst')
    (calls a) st hst

/-- A pair evaluated above the clustering threshold whose reverse call
direction is never enumerated is recorded in the adjacency map. -/
theorem edgeStep_J (structural : List FName) (calls : FName → List FName)
    (cr ids : FName → List String) {a b : FName} (hnab : a ∉ calls b)
    (hthr : CLUSTER_THRESHOLD ≤ coupling cr ids calls a b)
    (st : PhaseAState) (x y : FName) (hy : y ∈ calls x)
    (hJ : sortedPair a b ∈ st.seen → b ∈ st.adj a) :
    sortedPair a b ∈ (edgeStep structural calls cr ids st x y).seen
      → b ∈ (edgeStep structural calls cr ids st x y).adj a := by
  unfold edgeStep
  by_cases h1 : y ∉ structural ∨ x = y
  · rw [if_pos h1]
    exact hJ
  · rw [if_neg h1]
    push_neg at h1
    dsimp only
    by_cases h2 : sortedPair x y ∈ st.seen
    · rw [if_pos h2]
      exact hJ
    · rw [if_neg h2]
      dsimp only
      intro hseen
      rcases List.mem_cons.mp hseen with heq | hseen
      · rcases sortedPair_eq heq.symm with ⟨rfl, rfl⟩ | ⟨rfl, rfl⟩
        · rw [if_pos hthr, mem_updAdj st.adj x y y x h1.2]
          exact Or.inr (Or.inl ⟨rfl, rfl⟩)
        · exact absurd hy hnab
      · have hb' := hJ hseen
        by_cases h3 : CLUSTER_THRESHOLD ≤ coupling cr ids calls x y
        · rw [if_pos h3, mem_updAdj st.adj x y b a h1.2]
          exact Or.inl hb'
        · rw [if_neg h3]
          exact hb'

/-- After the inner loop over a callee list containing `b`, the pair is
in the seen set. -/
theorem inner_seen_aux (structural : List FName) (calls : FName → List FName)
    (cr ids : FName → List String) (a b : FName) (hbs : b ∈ structural) (hne : a ≠ b) :
    ∀ (l : List FName), b ∈ l → ∀ st : PhaseAState,
      sortedPair a b
        ∈ (l.foldl (fun st y => edgeStep structural calls cr ids st a y) st).seen := by
  intro l
  induction l with
  | nil =>
    intro h
    cases h
  | cons y l ih =>
    intro hbl st
    rw [List.foldl_cons]
    rcases List.mem_cons.mp hbl with rfl | hb'
    · have hstep : sortedPair a b ∈ (edgeStep structural calls cr ids st a b).seen := by
        unfold edgeStep
        rw [if_neg (by push_neg; exact ⟨hbs, hne⟩)]
        dsimp only
        by_cases h2 : sortedPair a b ∈ st.seen
        · rw [if_pos h2]
          exact h2
        · rw [if_neg h2]
          exact List.mem_cons_self _ _
      exact foldl_inv (fun st : PhaseAState => sortedPair a b ∈ st.seen)
        _ (fun st' y' h => edgeStep_seen_mono structural calls cr ids st' a y' h) l _ hstep
    · exact ih hb' _

/-- Every enumerated structural pair ends up in the seen set. -/
theorem build_seen (order structural : List FName) (calls : FName → List FName)
    (cr ids : FName → List String) {a b : FName}
    (ha : a ∈ order) (hbs : b ∈ structural) (hb : b ∈ calls a) (hne : a ≠ b) :
    sortedPair a b ∈ (build_structure_edges order structural calls cr ids).seen := by
  unfold build_structure_edges
  suffices h : ∀ (l : List FName), a ∈ l → ∀ st : PhaseAState,
      sortedPair a b ∈ (l.foldl (fun st x =>
        (calls x).foldl (fun st y => edgeStep structural calls cr ids st x y) st) st).seen by
    exact h order ha _
  intro l
  induction l with
  | nil =>
    intro h
    cases h
  | cons x l ih =>
    intro hal st
    rw [List.foldl_cons]
    rcases List.mem_cons.mp hal with rfl | hal'
    · have hin := inner_seen_aux structural calls cr ids a b hbs hne (calls a) hb st
      exact foldl_inv (fun st : PhaseAState => sortedPair a b ∈ st.seen) _
        (fun st' x' h => foldl_inv (fun st : PhaseAState => sortedPair a b ∈ st.seen) _
          (fun st'' y' h' => edgeStep_seen_mono structural calls cr ids st'' x' y' h')
          (calls x') st' h)
        l _ hin
    · exact ih hal' _

/-- Completeness of Phase A for pairs whose reverse call direction is
never enumerated: the above-threshold coupling test is applied in the
one enumerated direction and records the edge. -/
theorem build_complete (order structural : List FName) (calls : FName → List FName)
    (cr ids : FName → List String) {a b : FName}
    (ha : a ∈ order) (hbs : b ∈ structural) (hb : b ∈ calls a) (hnab : a ∉ calls b)
    (hne : a ≠ b) (hthr : CLUSTER_THRESHOLD ≤ coupling cr ids calls a b) :
    b ∈ (build_structure_edges order structural calls cr ids).adj a := by
  have hseen := build_seen order structural calls cr ids ha hbs hb hne
  have hJ : sortedPair a b ∈ (build_structure_edges order structural calls cr ids).seen
      → b ∈ (build_structure_edges order structural calls cr ids).adj a := by
    unfold build_structure_edges
    refine foldl_inv (fun st : PhaseAState => sortedPair a b ∈ st.seen → b ∈ st.adj a)
      _ ?_ order ⟨[], [], fun _ => []⟩ ?_
    · intro st x hst
      exact foldl_inv_mem (fun st : PhaseAState => sortedPair a b ∈ st.seen → b ∈ st.adj a)
        _ (calls x)
        (fun st' y hy hst' => edgeStep_J structural calls cr ids hnab hthr st' x y hy hst')
        st hst
    · intro h
      exact absurd h (List.not_mem_nil _)
  exact hJ hseen


/-- C4 (amended): cluster discovery does not evaluate all pairs — the
adjacency relation is populated only from enumerated call-connected
pairs.  Soundly, every adjacency edge joins two distinct structural
functions whose coupling passed 0.25 in some enumerated direction, and
every weighted edge records the coupling of its own call direction at
0.15; completely, a call pair whose reverse direction is never
enumerated is tested exactly once, in its call direction.  The raw
cluster candidates are exactly the connected components of the
adjacency relation with at least two members: every discovered cluster
is a full component of one of its members, and every function with an
adjacency neighbour appears in a discovered cluster. -/
theorem C4_cluster_discovery (fns : List FName) (calls : FName → List FName)
    (context_roots idents : FName → List String) :
    (∀ x y, y ∈ (build_structure_edges fns fns calls context_roots idents).adj x →
      x ≠ y ∧ x ∈ fns ∧ y ∈ fns
        ∧ ((y ∈ calls x ∧ CLUSTER_THRESHOLD ≤ coupling context_roots idents calls x y)
          ∨ (x ∈ calls y ∧ CLUSTER_THRESHOLD ≤ coupling context_roots idents calls y x)))
    ∧ (∀ a b c,
        (a, b, c) ∈ (build_structure_edges fns fns calls context_roots idents).all_edges →
        a ∈ fns ∧ b ∈ fns ∧ b ∈ calls a ∧ a ≠ b
          ∧ c = coupling context_roots idents calls a b ∧ MIN_EDGE ≤ c)
    ∧ (∀ a b, a ∈ fns → b ∈ fns → b ∈ calls a → a ∉ calls b → a ≠ b →
        CLUSTER_THRESHOLD ≤ coupling context_roots idents calls a b →
        b ∈ (build_structure_edges fns fns calls context_roots idents).adj a
          ∧ a ∈ (build_structure_edges fns fns calls context_roots idents).adj b)
    ∧ (∀ C, C ∈ discover_clusters fns fns calls context_roots idents →
        2 ≤ C.length ∧ ∃ x, x ∈ C ∧ ∀ y, (y ∈ C ↔
          ReachAdj (build_structure_edges fns fns calls context_roots idents).adj x y))
    ∧ (∀ n, n ∈ fns →
        (∃ m, m ∈ (build_structure_edges fns fns calls context_roots idents).adj n) →
        ∃ C, C ∈ discover_clusters fns fns calls context_roots idents ∧ n ∈ C) := by
  obtain ⟨hS1, hS2⟩ := build_sound fns fns calls context_roots idents
  have hsound : ∀ x y,
      y ∈ (build_structure_edges fns fns calls context_roots idents).adj x →
      x ≠ y ∧ x ∈ fns ∧ y ∈ fns
        ∧ ((y ∈ calls x ∧ CLUSTER_THRESHOLD ≤ coupling context_roots idents calls x y)
          ∨ (x ∈ calls y ∧ CLUSTER_THRESHOLD ≤ coupling context_roots idents calls y x)) := by
    intro x y hy
    obtain ⟨a, b, hab, ha, hb, hbs, hne, hthr⟩ := hS1 x y hy
    rcases hab with ⟨rfl, rfl⟩ | ⟨rfl, rfl⟩
    · exact ⟨hne, ha, hbs, Or.inl ⟨hb, hthr⟩⟩
    · exact ⟨hne.symm, hbs, ha, Or.inr ⟨hb, hthr⟩⟩
  have hclosed : ∀ x y,
      y ∈ (build_structure_edges fns fns calls context_roots idents).adj x → y ∈ fns :=
    fun x y hy => (hsound x y hy).2.2.1
  have hirr : ∀ x, x ∉ (build_structure_edges fns fns calls context_roots idents).adj x :=
    fun x hx => (hsound x x hx).1 rfl
  have hsym := fun p q => build_adj_symm fns fns calls context_roots idents p q
  obtain ⟨hfccA, hfccB⟩ :=
    fcc_spec (build_structure_edges fns fns calls context_roots idents).adj fns
      hclosed hsym hirr
  refine ⟨hsound, ?_, ?_, ?_, ?_⟩
  · intro a b c hmem
    obtain ⟨h1, h2, h3, h4, h5, h6⟩ := hS2 (a, b, c) hmem
    exact ⟨h1, h3, h2, h4, h5, h6⟩
  · intro a b ha hb hcall hnab hne hthr
    refine ⟨build_complete fns fns calls context_roots idents ha hb hcall hnab hne hthr, ?_⟩
    exact (build_adj_symm fns fns calls context_roots idents a b).mpr
      (build_complete fns fns calls context_roots idents ha hb hcall hnab hne hthr)
  · intro C hC
    exact hfccA C hC
  · intro n hn hm
    exact hfccB n hn hm

/-- Token-set similarity of the shared-root pair: one third (the module
token is shared). -/
theorem w4_sim : semantic_similarity w4p w4q = 1/3 := by
  unfold semantic_similarity
  rw [show tokenize_identifier w4p = ["k", "pa"] from by decide,
    show tokenize_identifier w4q = ["k", "qb"] from by decide]
  rw [if_neg (by decide)]
  dsimp only
  rw [show (["k", "pa"].inter ["k", "qb"]).length = 1 from by decide,
    show (["k", "pa"].union ["k", "qb"]).length = 3 from by decide]
  norm_num

set_option maxHeartbeats 1000000 in
/-- Counterexample to C4 as stated: two distinct functions sharing a
context root have coupling 0.7 ≥ 0.25 in both directions, yet — with no
call edge between them — Phase A records no adjacency edge, no weighted
edge, and discovers no cluster, because only call-connected pairs are
ever evaluated. -/
theorem C4_counterexample :
    CLUSTER_THRESHOLD ≤ coupling w4cr wEmpty wEmpty w4p w4q
      ∧ CLUSTER_THRESHOLD ≤ coupling w4cr wEmpty wEmpty w4q w4p
      ∧ w4p ≠ w4q
      ∧ (build_structure_edges [w4p, w4q] [w4p, w4q] wEmpty w4cr wEmpty).adj w4p = []
      ∧ (build_structure_edges [w4p, w4q] [w4p, w4q] wEmpty w4cr wEmpty).adj w4q = []
      ∧ (build_structure_edges [w4p, w4q] [w4p, w4q] wEmpty w4cr wEmpty).all_edges = []
      ∧ discover_clusters [w4p, w4q] [w4p, w4q] wEmpty w4cr wEmpty = [] := by
  have hc : coupling w4cr wEmpty wEmpty w4p w4q = 7/10 := by
    unfold coupling
    rw [w4_sim]
    norm_num +decide [w4cr, wEmpty,
      show ((["sroot"] : List String).inter ["sroot"]).length = 1 from by decide,
      show (action_words.any fun word => hasSub word (lowerStr w4p)) = false from by decide,
      show (action_words.any fun word => hasSub word (lowerStr w4q)) = false from by decide]
  have hc' : coupling w4cr wEmpty wEmpty w4q w4p = 7/10 := by
    unfold coupling
    rw [show semantic_similarity w4q w4p = 1/3 from by
      unfold semantic_similarity
      rw [show tokenize_identifier w4q = ["k", "qb"] from by decide,
        show tokenize_identifier w4p = ["k", "pa"] from by decide]
      rw [if_neg (by decide)]
      dsimp only
      rw [show (["k", "qb"].inter ["k", "pa"]).length = 1 from by decide,
        show (["k", "qb"].union ["k", "pa"]).length = 3 from by decide]
      norm_num]
    norm_num +decide [w4cr, wEmpty,
      show ((["sroot"] : List String).inter ["sroot"]).length = 1 from by decide,
      show (action_words.any fun word => hasSub word (lowerStr w4p)) = false from by decide,
      show (action_words.any fun word => hasSub word (lowerStr w4q)) = false from by decide]
  refine ⟨?_, ?_, by decide, rfl, rfl, rfl, rfl⟩
  · rw [hc]
    unfold CLUSTER_THRESHOLD
    norm_num
  · rw [hc']
    unfold CLUSTER_THRESHOLD
    norm_num

set_option maxHeartbeats 1000000 in
/-- Witness for C4: on the pair with one call edge and coupling 1.0, the
theorem yields the adjacency edge in both directions. -/
theorem C4_cluster_discovery_witness :
    w4q ∈ w4calls w4p ∧ w4p ∉ w4calls w4q ∧ w4p ≠ w4q
      ∧ CLUSTER_THRESHOLD ≤ coupling w4cr wEmpty w4calls w4p w4q
      ∧ w4q ∈ (build_structure_edges [w4p, w4q] [w4p, w4q] w4calls w4cr wEmpty).adj w4p
      ∧ w4p ∈ (build_structure_edges [w4p, w4q] [w4p, w4q] w4calls w4cr wEmpty).adj w4q := by
  have hc : coupling w4cr wEmpty w4calls w4p w4q = 1 := by
    unfold coupling
    rw [w4_sim]
    norm_num +decide [w4cr, wEmpty,
      show ((["sroot"] : List String).inter ["sroot"]).length = 1 from by decide,
      show w4calls w4p = [w4q] from by decide,
      show w4calls w4q = [] from by decide,
      show (w4q ∈ [w4q]) from by decide,
      show (action_words.any fun word => hasSub word (lowerStr w4p)) = false from by decide,
      show (action_words.any fun word => hasSub word (lowerStr w4q)) = false from by decide]
  have hthr : CLUSTER_THRESHOLD ≤ coupling w4cr wEmpty w4calls w4p w4q := by
    rw [hc]
    unfold CLUSTER_THRESHOLD
    norm_num
  have h := (C4_cluster_discovery [w4p, w4q] w4calls w4cr wEmpty).2.2.1 w4p w4q
    (by decide) (by decide) (by decide) (by decide) (by decide) hthr
  exact ⟨by decide, by decide, by decide, hthr, h.1, h.2⟩

end LuaStructure
